import Mathlib

/-!
Verification of the competitive-intelligence data model
(`src/models/product.py`, `src/models/promotion.py`, `src/models/competitor.py`,
`src/utils/validators.py`) against its natural-language specification.

The Python code is shallowly embedded: pydantic record construction becomes an
error-collecting validation function per model, Python `str` operations are
modelled on ASCII strings (`String` / `List Char`), Python `float`/`Decimal`
arithmetic is modelled with exact rationals (the values involved are small
decimal literals), and Python functions raising exceptions return `Except`.
-/

/-! ## Python string primitives (ASCII model) -/

/-- Python `str` whitespace (ASCII part): the characters `str.split()` and
`str.strip()` treat as whitespace. -/
def pyIsSpace (c : Char) : Bool :=
  c = ' ' || c = '\t' || c = '\n' || c = '\r' || c = '\x0b' || c = '\x0c'

/-- Python `s.split()` (whitespace words, no empties), with an accumulator for
the word being read. -/
def pyWordsAux : List Char → List Char → List (List Char)
  | acc, [] => if acc = [] then [] else [acc.reverse]
  | acc, c :: rest =>
    if pyIsSpace c then
      if acc = [] then pyWordsAux [] rest else acc.reverse :: pyWordsAux [] rest
    else pyWordsAux (c :: acc) rest

/-- Python `s.split()`: split on whitespace runs, no empty parts. -/
def pyWords (l : List Char) : List (List Char) := pyWordsAux [] l

/-- Python `' '.join(words)`. -/
def joinSpace : List (List Char) → List Char
  | [] => []
  | [w] => w
  | w :: ws => w ++ ' ' :: joinSpace ws

/-- Python `' '.join(s.split())`: collapse whitespace runs to single spaces and
trim the ends (used by `Product.validate_product_name`,
`Promotion.validate_promo_title` and `TextValidator.clean_text`). -/
def normalizeWs (s : String) : String :=
  String.mk (joinSpace (pyWords s.data))

/-- Python `s.strip()` (ASCII whitespace model). -/
def pyStrip (s : String) : String :=
  String.mk (((s.data.dropWhile fun c => pyIsSpace c).reverse.dropWhile
    fun c => pyIsSpace c).reverse)

/-- Python `s.upper()` (ASCII model). -/
def pyUpper (s : String) : String := String.mk (s.data.map Char.toUpper)

/-- Python `s.lower()` (ASCII model). -/
def pyLower (s : String) : String := String.mk (s.data.map Char.toLower)

/-- `listStartsWith l p` : the list `l` starts with `p` (Python `startswith`). -/
def listStartsWith : List Char → List Char → Bool
  | _, [] => true
  | [], _ :: _ => false
  | a :: as, b :: bs => a = b && listStartsWith as bs

/-- Python `s.startswith(p)` (character-list implementation, so that concrete
evaluation is purely structural). -/
def pyStartsWith (s p : String) : Bool := listStartsWith s.data p.data

/-- Python `s[n:]` (drop the first `n` code points). -/
def pyDropChars (s : String) (n : Nat) : String := String.mk (s.data.drop n)

/-- Python `needle in haystack` on strings (substring containment). -/
def listHasSub (h n : List Char) : Bool :=
  listStartsWith h n ||
    match h with
    | [] => false
    | _ :: t => listHasSub t n

/-- Python timestamps (`datetime.datetime`), to calendar-second precision. -/
structure PyDateTime where
  year : Nat
  month : Nat
  day : Nat
  hour : Nat := 0
  minute : Nat := 0
  second : Nat := 0
deriving DecidableEq, Repr

/-- Python calendar dates (`datetime.date`). -/
structure PyDate where
  year : Nat
  month : Nat
  day : Nat
deriving DecidableEq, Repr

/-- Lexicographic `<` on dates, as Python compares `datetime.date` values. -/
def PyDate.lt (a b : PyDate) : Bool :=
  a.year < b.year ||
    (a.year = b.year && (a.month < b.month ||
      (a.month = b.month && a.day < b.day)))

/-! ## `src/models/competitor.py`: CrawlSettings and Competitor

Only the fields and methods the claims touch are modelled; integer fields are
Python `int` (ℤ), `delay` is a Python float modelled as ℚ. -/

structure CrawlSettings where
  depth : Int := 2
  limit : Int := 50
  delay : ℚ := 1
  timeout : Int := 30
  retries : Int := 3
deriving DecidableEq, Repr

structure HttpUrl where
  raw : String
deriving DecidableEq, Repr

structure Competitor where
  name : String
  new_urls : List HttpUrl
  promo_urls : List HttpUrl
  crawl : CrawlSettings := {}
  description : Option String := Option.none
  website : Option HttpUrl := Option.none
  priority : Int := 1
  enabled : Bool := true
  tags : List String := []
  exclude_patterns : List String := []
deriving DecidableEq, Repr

/-- `Competitor.get_total_url_count`: `len(self.new_urls) + len(self.promo_urls)`. -/
def Competitor.get_total_url_count (c : Competitor) : Int :=
  (c.new_urls.length : Int) + (c.promo_urls.length : Int)

/-- `Competitor.get_estimated_pages`:
`base_pages + base_pages * min(self.crawl.depth - 1, self.crawl.limit // 10)`
(Python `//` is floor division, modelled by `Int.fdiv`). -/
def Competitor.get_estimated_pages (c : Competitor) : Int :=
  let base_pages := c.get_total_url_count
  let estimated_additional := base_pages * min (c.crawl.depth - 1) (Int.fdiv c.crawl.limit 10)
  base_pages + estimated_additional

/-! ## `ProductList` / `PromotionList` success-rate counters

The record sequences themselves are irrelevant to `get_success_rate`; the
counters are Python `int`s supplied externally.  Division is Python float
division, modelled by exact division in ℚ. -/

structure ProductListCounters where
  competitor : String
  total_products : Int := 0
  successful_extractions : Int := 0
  failed_extractions : Int := 0
deriving DecidableEq, Repr

structure PromotionListCounters where
  competitor : String
  total_promotions : Int := 0
  active_promotions : Int := 0
  upcoming_promotions : Int := 0
  expired_promotions : Int := 0
  successful_extractions : Int := 0
  failed_extractions : Int := 0
deriving DecidableEq, Repr

/-- `ProductList.get_success_rate`:
`total = successful + failed; return successful / total if total > 0 else 0.0`. -/
def ProductListCounters.get_success_rate (l : ProductListCounters) : ℚ :=
  let total := l.successful_extractions + l.failed_extractions
  if total > 0 then (l.successful_extractions : ℚ) / (total : ℚ) else 0

/-- `PromotionList.get_success_rate` (same body as `ProductList.get_success_rate`). -/
def PromotionListCounters.get_success_rate (l : PromotionListCounters) : ℚ :=
  let total := l.successful_extractions + l.failed_extractions
  if total > 0 then (l.successful_extractions : ℚ) / (total : ℚ) else 0

/-! ## `DateValidator.parse_date` (`src/utils/validators.py`)

`datetime.strptime` is modelled for the eight format strings the source tries.
CPython's `_strptime` compiles each directive to a regex; for these formats
every directive is followed by a non-digit literal (or end of string), so the
regex's greedy, backtracking alternation for 1-2 digit fields coincides with
"longest valid match first", which is what `parse2or1` implements.  Month
names are matched case-insensitively, as `IGNORECASE` compilation does.
`datetime`'s constructor validation (month 1-12, day within the month, year
at least `MINYEAR = 1`) is modelled by `mkDateTime?`. -/

def digitVal? (c : Char) : Option Nat :=
  if c.isDigit then some (c.toNat - 48) else Option.none

/-- 1-2 digit numeric directive (`%m`, `%d`, `%H`, `%M`, `%S`): longest valid
match first, falling back to the single digit, as the compiled regex
alternations (`1[0-2]|0[1-9]|[1-9]` etc.) do. -/
def parse2or1 (valid : Nat → Bool) : List Char → Option (Nat × List Char)
  | c1 :: c2 :: rest =>
    match digitVal? c1, digitVal? c2 with
    | some a, some b =>
      if valid (10 * a + b) then some (10 * a + b, rest)
      else if valid a then some (a, c2 :: rest) else Option.none
    | some a, _ => if valid a then some (a, c2 :: rest) else Option.none
    | _, _ => Option.none
  | [c1] =>
    match digitVal? c1 with
    | some a => if valid a then some (a, []) else Option.none
    | _ => Option.none
  | [] => Option.none

/-- `%Y`: exactly four digits (regex `\d\d\d\d`). -/
def parse4 : List Char → Option (Nat × List Char)
  | a :: b :: c :: d :: rest =>
    match digitVal? a, digitVal? b, digitVal? c, digitVal? d with
    | some w, some x, some y, some z => some (1000 * w + 100 * x + 10 * y + z, rest)
    | _, _, _, _ => Option.none
  | _ => Option.none

/-- A literal character in the format string. -/
def expectChar (c : Char) : List Char → Option (List Char)
  | x :: r => if x = c then some r else Option.none
  | [] => Option.none

/-- Whitespace in the format string matches `\s+`. -/
def expectWs : List Char → Option (List Char)
  | x :: r => if pyIsSpace x then some (r.dropWhile fun c => pyIsSpace c) else Option.none
  | [] => Option.none

/-- Case-insensitive name match, returning the remainder. -/
def dropNameCI : List Char → List Char → Option (List Char)
  | l, [] => some l
  | [], _ :: _ => Option.none
  | a :: as, b :: bs =>
    if a.toLower = b.toLower then dropNameCI as bs else Option.none

def monthFullNames : List (String × Nat) :=
  [("january", 1), ("february", 2), ("march", 3), ("april", 4), ("may", 5),
   ("june", 6), ("july", 7), ("august", 8), ("september", 9), ("october", 10),
   ("november", 11), ("december", 12)]

def monthAbbrNames : List (String × Nat) :=
  [("jan", 1), ("feb", 2), ("mar", 3), ("apr", 4), ("may", 5), ("jun", 6),
   ("jul", 7), ("aug", 8), ("sep", 9), ("oct", 10), ("nov", 11), ("dec", 12)]

/-- `%B` / `%b`: month by name. -/
def parseMonthName (names : List (String × Nat)) (l : List Char) :
    Option (Nat × List Char) :=
  names.findSome? fun nm => (dropNameCI l nm.1.data).map fun r => (nm.2, r)

def isLeapYear (y : Nat) : Bool :=
  y % 4 = 0 && (y % 100 ≠ 0 || y % 400 = 0)

def daysInMonth (y m : Nat) : Nat :=
  if m = 2 then (if isLeapYear y then 29 else 28)
  else if m = 4 || m = 6 || m = 9 || m = 11 then 30
  else 31

/-- The `datetime` constructor's validation. -/
def mkDateTime? (y m d hh mm ss : Nat) : Option PyDateTime :=
  if 1 ≤ y ∧ y ≤ 9999 ∧ 1 ≤ m ∧ m ≤ 12 ∧ 1 ≤ d ∧ d ≤ daysInMonth y m ∧
      hh ≤ 23 ∧ mm ≤ 59 ∧ ss ≤ 59 then
    some ⟨y, m, d, hh, mm, ss⟩
  else Option.none

def validMonthNum (m : Nat) : Bool := 1 ≤ m && m ≤ 12
def validDayNum (d : Nat) : Bool := 1 ≤ d && d ≤ 31
def validHourNum (h : Nat) : Bool := h ≤ 23
def validMinSecNum (x : Nat) : Bool := x ≤ 59

/-- `"%Y-%m-%d"` (e.g. `2024-01-15`). -/
def fmtIso (s : List Char) : Option PyDateTime := do
  let (y, r) ← parse4 s
  let r ← expectChar '-' r
  let (m, r) ← parse2or1 validMonthNum r
  let r ← expectChar '-' r
  let (d, r) ← parse2or1 validDayNum r
  if r = [] then mkDateTime? y m d 0 0 0 else Option.none

/-- `"%m/%d/%Y"` (e.g. `01/15/2024`). -/
def fmtUsSlash (s : List Char) : Option PyDateTime := do
  let (m, r) ← parse2or1 validMonthNum s
  let r ← expectChar '/' r
  let (d, r) ← parse2or1 validDayNum r
  let r ← expectChar '/' r
  let (y, r) ← parse4 r
  if r = [] then mkDateTime? y m d 0 0 0 else Option.none

/-- `"%d/%m/%Y"` (e.g. `15/01/2024`). -/
def fmtEuSlash (s : List Char) : Option PyDateTime := do
  let (d, r) ← parse2or1 validDayNum s
  let r ← expectChar '/' r
  let (m, r) ← parse2or1 validMonthNum r
  let r ← expectChar '/' r
  let (y, r) ← parse4 r
  if r = [] then mkDateTime? y m d 0 0 0 else Option.none

/-- `"%B %d, %Y"` (e.g. `January 15, 2024`). -/
def fmtMonthLong (s : List Char) : Option PyDateTime := do
  let (m, r) ← parseMonthName monthFullNames s
  let r ← expectWs r
  let (d, r) ← parse2or1 validDayNum r
  let r ← expectChar ',' r
  let r ← expectWs r
  let (y, r) ← parse4 r
  if r = [] then mkDateTime? y m d 0 0 0 else Option.none

/-- `"%b %d, %Y"` (e.g. `Jan 15, 2024`). -/
def fmtMonthAbbr (s : List Char) : Option PyDateTime := do
  let (m, r) ← parseMonthName monthAbbrNames s
  let r ← expectWs r
  let (d, r) ← parse2or1 validDayNum r
  let r ← expectChar ',' r
  let r ← expectWs r
  let (y, r) ← parse4 r
  if r = [] then mkDateTime? y m d 0 0 0 else Option.none

/-- `"%d %B %Y"` (e.g. `15 January 2024`). -/
def fmtDayFirstLong (s : List Char) : Option PyDateTime := do
  let (d, r) ← parse2or1 validDayNum s
  let r ← expectWs r
  let (m, r) ← parseMonthName monthFullNames r
  let r ← expectWs r
  let (y, r) ← parse4 r
  if r = [] then mkDateTime? y m d 0 0 0 else Option.none

/-- `"%d %b %Y"` (e.g. `15 Jan 2024`). -/
def fmtDayFirstAbbr (s : List Char) : Option PyDateTime := do
  let (d, r) ← parse2or1 validDayNum s
  let r ← expectWs r
  let (m, r) ← parseMonthName monthAbbrNames r
  let r ← expectWs r
  let (y, r) ← parse4 r
  if r = [] then mkDateTime? y m d 0 0 0 else Option.none

/-- `"%Y-%m-%d %H:%M:%S"` (e.g. `2024-01-15 10:30:45`). -/
def fmtTimestamp (s : List Char) : Option PyDateTime := do
  let (y, r) ← parse4 s
  let r ← expectChar '-' r
  let (m, r) ← parse2or1 validMonthNum r
  let r ← expectChar '-' r
  let (d, r) ← parse2or1 validDayNum r
  let r ← expectWs r
  let (hh, r) ← parse2or1 validHourNum r
  let r ← expectChar ':' r
  let (mm, r) ← parse2or1 validMinSecNum r
  let r ← expectChar ':' r
  let (ss, r) ← parse2or1 validMinSecNum r
  if r = [] then mkDateTime? y m d hh mm ss else Option.none

/-- The format list of `DateValidator.parse_date`, in source order. -/
def dateFormats : List (List Char → Option PyDateTime) :=
  [fmtIso, fmtUsSlash, fmtEuSlash, fmtMonthLong, fmtMonthAbbr,
   fmtDayFirstLong, fmtDayFirstAbbr, fmtTimestamp]

/-- `DateValidator.parse_date`: `if not date_str: return None`, then try each
format on `date_str.strip()` in order and return the first success. -/
def parse_date (date_str : String) : Option PyDateTime :=
  if date_str = "" then Option.none
  else dateFormats.findSome? fun f => f (pyStrip date_str).data

/-! ## Enumerations (`ProductCategory`, `PromotionType`, `PromotionStatus`)

`class Foo(str, Enum)` members; `Foo(s)` is member lookup by exact value,
modelled by `ofValue?`. -/

inductive ProductCategory
  | furniture | home_decor | bedding | lighting | rugs | kitchen
  | outdoor | storage | office | kids | other
deriving DecidableEq, Repr

def ProductCategory.value : ProductCategory → String
  | .furniture => "furniture"
  | .home_decor => "home_decor"
  | .bedding => "bedding"
  | .lighting => "lighting"
  | .rugs => "rugs"
  | .kitchen => "kitchen"
  | .outdoor => "outdoor"
  | .storage => "storage"
  | .office => "office"
  | .kids => "kids"
  | .other => "other"

/-- `ProductCategory(s)`: exact-value member lookup, `ValueError` on no match. -/
def ProductCategory.ofValue? (s : String) : Option ProductCategory :=
  if s = "furniture" then some .furniture
  else if s = "home_decor" then some .home_decor
  else if s = "bedding" then some .bedding
  else if s = "lighting" then some .lighting
  else if s = "rugs" then some .rugs
  else if s = "kitchen" then some .kitchen
  else if s = "outdoor" then some .outdoor
  else if s = "storage" then some .storage
  else if s = "office" then some .office
  else if s = "kids" then some .kids
  else if s = "other" then some .other
  else Option.none

inductive PromotionType
  | percentage_off | dollar_off | bogo | free_shipping | flash_sale
  | clearance | bundle_deal | new_customer | loyalty_program
  | seasonal_sale | other
deriving DecidableEq, Repr

def PromotionType.value : PromotionType → String
  | .percentage_off => "percentage_off"
  | .dollar_off => "dollar_off"
  | .bogo => "buy_one_get_one"
  | .free_shipping => "free_shipping"
  | .flash_sale => "flash_sale"
  | .clearance => "clearance"
  | .bundle_deal => "bundle_deal"
  | .new_customer => "new_customer"
  | .loyalty_program => "loyalty_program"
  | .seasonal_sale => "seasonal_sale"
  | .other => "other"

def PromotionType.ofValue? (s : String) : Option PromotionType :=
  if s = "percentage_off" then some .percentage_off
  else if s = "dollar_off" then some .dollar_off
  else if s = "buy_one_get_one" then some .bogo
  else if s = "free_shipping" then some .free_shipping
  else if s = "flash_sale" then some .flash_sale
  else if s = "clearance" then some .clearance
  else if s = "bundle_deal" then some .bundle_deal
  else if s = "new_customer" then some .new_customer
  else if s = "loyalty_program" then some .loyalty_program
  else if s = "seasonal_sale" then some .seasonal_sale
  else if s = "other" then some .other
  else Option.none

inductive PromotionStatus
  | active | upcoming | expired | unknown
deriving DecidableEq, Repr

def PromotionStatus.value : PromotionStatus → String
  | .active => "active"
  | .upcoming => "upcoming"
  | .expired => "expired"
  | .unknown => "unknown"

def PromotionStatus.ofValue? (s : String) : Option PromotionStatus :=
  if s = "active" then some .active
  else if s = "upcoming" then some .upcoming
  else if s = "expired" then some .expired
  else if s = "unknown" then some .unknown
  else Option.none

/-! ## pydantic field validation pipeline

Construction of a pydantic model validates every field in declaration order and
collects all violation messages; construction succeeds only when no field
violated a constraint.  `vApp` is the error-collecting applicative used to
assemble a record from per-field results.  For each field, pydantic runs its
own `Field(...)` constraints and type coercions first and the model's
`@validator` methods after - only when the former succeeded. -/

def errsOf {α : Type} : Except String α → List String
  | .ok _ => []
  | .error e => [e]

def vApp {α β : Type} :
    Except (List String) (α → β) → Except String α → Except (List String) β
  | .ok f, .ok a => .ok (f a)
  | .ok _, .error e => .error [e]
  | .error es, .ok _ => .error es
  | .error es, .error e => .error (es ++ [e])

/-- Did the construction succeed? -/
def exOk {ε α : Type} : Except ε α → Bool
  | .ok _ => true
  | .error _ => false

/-- Models pydantic v1 `HttpUrl` validation: an `http`/`https` scheme, a
nonempty host, overall length at most 2083; the stored value (a `str`
subclass) is the input string itself. -/
def HttpUrl.parse? (s : String) : Option HttpUrl :=
  let hostOk : List Char → Bool
    | [] => false
    | c :: _ => ¬(c = '/' || c = '?' || c = '#')
  if s.length ≤ 2083 then
    if pyStartsWith s "http://" then
      (if hostOk (s.data.drop 7) then some ⟨s⟩ else Option.none)
    else if pyStartsWith s "https://" then
      (if hostOk (s.data.drop 8) then some ⟨s⟩ else Option.none)
    else Option.none
  else Option.none

/-- Required `str` field with `min_length`/`max_length`. -/
def vReqStr (lo hi : Nat) (v : Option String) : Except String String :=
  match v with
  | Option.none => .error "field required"
  | some s =>
    if s.length < lo then .error "ensure this value has at least the minimum length"
    else if hi < s.length then .error "ensure this value has at most the maximum length"
    else .ok s

/-- Optional `str` field with `max_length`. -/
def vOptStrMax (hi : Nat) (v : Option String) : Except String (Option String) :=
  match v with
  | Option.none => .ok Option.none
  | some s =>
    if hi < s.length then .error "ensure this value has at most the maximum length"
    else .ok (some s)

/-- `product_name` / `promo_title`: `min_length=1`, `max_length=500`, then the
cleaning validator (`' '.join(v.split())`, reject when the stripped result is
shorter than 2). -/
def vCleanedName (short : String) (v : Option String) : Except String String :=
  match v with
  | Option.none => .error "field required"
  | some s =>
    if s.length < 1 then .error "ensure this value has at least the minimum length"
    else if 500 < s.length then .error "ensure this value has at most the maximum length"
    else if s ≠ "" then
      let s1 := normalizeWs s
      if (pyStrip s1).length < 2 then .error short else .ok s1
    else .ok s

/-- Required URL field. -/
def vUrlReq (v : Option String) : Except String HttpUrl :=
  match v with
  | Option.none => .error "field required"
  | some s =>
    match HttpUrl.parse? s with
    | some u => .ok u
    | Option.none => .error "invalid or missing URL scheme"

/-- Optional URL field. -/
def vUrlOpt (v : Option String) : Except String (Option HttpUrl) :=
  match v with
  | Option.none => .ok Option.none
  | some s =>
    match HttpUrl.parse? s with
    | some u => .ok (some u)
    | Option.none => .error "invalid or missing URL scheme"

/-- The `category` field pipeline.  pydantic coerces the raw string into
`ProductCategory` (exact value lookup) *before* class validators run -
`validate_category` has no `pre=True` - so an unknown value raises a
`ValidationError` right there and the validator's `OTHER` fallback never
executes.  When coercion succeeds, the validator receives the member's string
value (`use_enum_values`) and re-resolves it after lowercasing. -/
def validate_category_body (v : String) : ProductCategory :=
  match ProductCategory.ofValue? (pyLower v) with
  | some c => c
  | Option.none => ProductCategory.other

def vCategory (v : Option String) : Except String (Option ProductCategory) :=
  match v with
  | Option.none => .ok Option.none
  | some s =>
    match ProductCategory.ofValue? s with
    | Option.none => .error "value is not a valid enumeration member"
    | some c => .ok (some (validate_category_body c.value))

/-- `price` / `original_price`: `Decimal` (modelled as ℚ), `ge=0`,
`decimal_places=2`, then `validate_price_range` (negative and >100000
rejected; the negativity branch is unreachable after `ge=0`).  A rational has
at most two decimal places exactly when its reduced denominator divides 100. -/
def vPrice (v : Option ℚ) : Except String (Option ℚ) :=
  match v with
  | Option.none => .ok Option.none
  | some q =>
    if q < 0 then .error "ensure this value is greater than or equal to 0"
    else if ¬(100 % q.den = 0) then .error "ensure that there are no more than 2 decimal places"
    else if q < 0 then .error "Price cannot be negative"
    else if 100000 < q then .error "Price seems unreasonably high"
    else .ok (some q)

/-- Optional float field with `ge`/`le` bounds. -/
def vRange (lo hi : ℚ) (v : Option ℚ) : Except String (Option ℚ) :=
  match v with
  | Option.none => .ok Option.none
  | some q =>
    if q < lo then .error "ensure this value is greater than or equal to the minimum"
    else if hi < q then .error "ensure this value is less than or equal to the maximum"
    else .ok (some q)

/-- Optional float field with `ge=0`. -/
def vNonNeg (v : Option ℚ) : Except String (Option ℚ) :=
  match v with
  | Option.none => .ok Option.none
  | some q =>
    if q < 0 then .error "ensure this value is greater than or equal to 0"
    else .ok (some q)

/-- Optional int field with `ge=0` (`review_count`). -/
def vReviewCount (v : Option Int) : Except String (Option Int) :=
  match v with
  | Option.none => .ok Option.none
  | some n => if n < 0 then .error "ensure this value is greater than or equal to 0" else .ok (some n)

/-- Optional int field with `ge`/`le` bounds (`priority`). -/
def vIntRange (lo hi : Int) (v : Option Int) : Except String (Option Int) :=
  match v with
  | Option.none => .ok Option.none
  | some n =>
    if n < lo then .error "ensure this value is greater than or equal to the minimum"
    else if hi < n then .error "ensure this value is less than or equal to the maximum"
    else .ok (some n)

/-! ## `src/models/product.py`: Product -/

structure Product where
  competitor : String
  product_name : String
  product_url : HttpUrl
  brand : Option String := Option.none
  category : Option ProductCategory := Option.none
  price : Option ℚ := Option.none
  original_price : Option ℚ := Option.none
  launch_date : Option PyDateTime := Option.none
  image_url : Option HttpUrl := Option.none
  description : Option String := Option.none
  availability : Option String := Option.none
  rating : Option ℚ := Option.none
  review_count : Option Int := Option.none
  sku : Option String := Option.none
  collected_at : PyDateTime
  extraction_confidence : Option ℚ := Option.none
  source_html_snippet : Option String := Option.none
deriving DecidableEq, Repr

/-- Raw extracted data offered to `Product(...)`; absent keys are `Option.none`.
Date values are modelled as already-parsed timestamps and decimal values as
exact rationals. -/
structure RawProduct where
  competitor : Option String := Option.none
  product_name : Option String := Option.none
  product_url : Option String := Option.none
  brand : Option String := Option.none
  category : Option String := Option.none
  price : Option ℚ := Option.none
  original_price : Option ℚ := Option.none
  launch_date : Option PyDateTime := Option.none
  image_url : Option String := Option.none
  description : Option String := Option.none
  availability : Option String := Option.none
  rating : Option ℚ := Option.none
  review_count : Option Int := Option.none
  sku : Option String := Option.none
  collected_at : Option PyDateTime := Option.none
  extraction_confidence : Option ℚ := Option.none
  source_html_snippet : Option String := Option.none
deriving Repr

/-- `Product(**raw)`: validate every field, collecting all violations;
`collected_at` falls back to its default factory (`now`). -/
def Product.ofRaw (raw : RawProduct) (now : PyDateTime) : Except (List String) Product :=
  vApp (vApp (vApp (vApp (vApp (vApp (vApp (vApp (vApp (vApp (vApp (vApp (vApp (vApp (vApp (vApp (vApp
    (.ok Product.mk)
    (vReqStr 1 100 raw.competitor))
    (vCleanedName "Product name too short" raw.product_name))
    (vUrlReq raw.product_url))
    (vOptStrMax 100 raw.brand))
    (vCategory raw.category))
    (vPrice raw.price))
    (vPrice raw.original_price))
    (.ok raw.launch_date))
    (vUrlOpt raw.image_url))
    (vOptStrMax 2000 raw.description))
    (vOptStrMax 50 raw.availability))
    (vRange 0 5 raw.rating))
    (vReviewCount raw.review_count))
    (vOptStrMax 100 raw.sku))
    (.ok (raw.collected_at.getD now)))
    (vRange 0 1 raw.extraction_confidence))
    (vOptStrMax 5000 raw.source_html_snippet)

/-- `Product.is_valid_for_export`:
`competitor and product_name and product_url and len(product_name.strip()) >= 2`
(an `HttpUrl` is a `str` subclass, so its truthiness is nonemptiness). -/
def Product.is_valid_for_export (p : Product) : Bool :=
  decide (p.competitor ≠ "") && decide (p.product_name ≠ "") &&
    decide (p.product_url.raw ≠ "") && decide (2 ≤ (pyStrip p.product_name).length)

/-- Zero-padded decimal rendering for `strftime`. -/
def pad2 (n : Nat) : String := if n < 10 then "0" ++ toString n else toString n

def pad4 (n : Nat) : String :=
  if n < 10 then "000" ++ toString n
  else if n < 100 then "00" ++ toString n
  else if n < 1000 then "0" ++ toString n
  else toString n

/-- `d.strftime('%Y-%m-%d')`. -/
def strftimeDate (d : PyDateTime) : String :=
  pad4 d.year ++ "-" ++ pad2 d.month ++ "-" ++ pad2 d.day

/-- `d.strftime('%Y-%m-%d %H:%M:%S')`. -/
def strftimeDateTime (d : PyDateTime) : String :=
  strftimeDate d ++ " " ++ pad2 d.hour ++ ":" ++ pad2 d.minute ++ ":" ++ pad2 d.second

/-- The flat dict produced by `Product.to_csv_dict`, with its fixed columns. -/
structure ProductCsvRow where
  competitor : String
  product_name : String
  brand : Option String
  category : Option String
  price : Option ℚ
  original_price : Option ℚ
  launch_date : Option String
  product_url : String
  image_url : Option String
  description : Option String
  availability : Option String
  rating : Option ℚ
  review_count : Option Int
  sku : Option String
  collected_at : String
deriving DecidableEq, Repr

/-- `Product.to_csv_dict`.  `'price': float(self.price) if self.price else None`
tests *truthiness*: `Decimal("0")` is falsy in Python, so a zero price (or
original_price) is exported as `None`, exactly like a missing one. -/
def Product.to_csv_dict (p : Product) : ProductCsvRow :=
  { competitor := p.competitor
    product_name := p.product_name
    brand := p.brand
    category := p.category.map ProductCategory.value
    price :=
      match p.price with
      | some q => if q = 0 then Option.none else some q
      | Option.none => Option.none
    original_price :=
      match p.original_price with
      | some q => if q = 0 then Option.none else some q
      | Option.none => Option.none
    launch_date := p.launch_date.map strftimeDate
    product_url := p.product_url.raw
    image_url := p.image_url.map HttpUrl.raw
    description := p.description
    availability := p.availability
    rating := p.rating
    review_count := p.review_count
    sku := p.sku
    collected_at := strftimeDateTime p.collected_at }

/-! ## `src/models/promotion.py`: Promotion -/

structure Promotion where
  competitor : String
  promo_title : String
  promo_url : HttpUrl
  promo_type : PromotionType
  promo_code : Option String := Option.none
  discount_value : Option ℚ := Option.none
  minimum_purchase : Option ℚ := Option.none
  start_date : Option PyDate := Option.none
  end_date : Option PyDate := Option.none
  status : PromotionStatus := PromotionStatus.unknown
  applicable_products : Option String := Option.none
  exclusions : Option String := Option.none
  image_url : Option HttpUrl := Option.none
  description : Option String := Option.none
  terms_and_conditions : Option String := Option.none
  priority : Option Int := Option.none
  collected_at : PyDateTime
  extraction_confidence : Option ℚ := Option.none
  source_html_snippet : Option String := Option.none
deriving DecidableEq, Repr

structure RawPromotion where
  competitor : Option String := Option.none
  promo_title : Option String := Option.none
  promo_url : Option String := Option.none
  promo_type : Option String := Option.none
  promo_code : Option String := Option.none
  discount_value : Option ℚ := Option.none
  minimum_purchase : Option ℚ := Option.none
  start_date : Option PyDate := Option.none
  end_date : Option PyDate := Option.none
  status : Option String := Option.none
  applicable_products : Option String := Option.none
  exclusions : Option String := Option.none
  image_url : Option String := Option.none
  description : Option String := Option.none
  terms_and_conditions : Option String := Option.none
  priority : Option Int := Option.none
  collected_at : Option PyDateTime := Option.none
  extraction_confidence : Option ℚ := Option.none
  source_html_snippet : Option String := Option.none
deriving Repr

/-- Required `promo_type` enumeration field. -/
def vPromoType (v : Option String) : Except String PromotionType :=
  match v with
  | Option.none => .error "field required"
  | some s =>
    match PromotionType.ofValue? s with
    | some t => .ok t
    | Option.none => .error "value is not a valid enumeration member"

/-- Prefix tokens `validate_promo_code` strips. -/
def promoPrefixes : List String := ["CODE:", "PROMO:", "USE:", "COUPON:"]

/-- The loop of `validate_promo_code`: each known token is removed in turn when
the current value starts with it, re-stripping afterwards. -/
def stripPromoTokens (v : String) : String :=
  promoPrefixes.foldl
    (fun v p => if pyStartsWith v p then pyStrip (pyDropChars v p.length) else v) v

/-- `validate_promo_code`: `v.strip().upper()`, strip known tokens, and
`return v if v else None`. -/
def validate_promo_code_body (s : String) : Option String :=
  let v := if s ≠ "" then stripPromoTokens (pyUpper (pyStrip s)) else s
  if v = "" then Option.none else some v

/-- `promo_code` field: `max_length=50`, then `validate_promo_code`. -/
def vPromoCode (v : Option String) : Except String (Option String) :=
  match v with
  | Option.none => .ok Option.none
  | some s =>
    if 50 < s.length then .error "ensure this value has at most the maximum length"
    else .ok (validate_promo_code_body s)

/-- `validate_discount_value`: runs after `ge=0`; reads
`values.get('promo_type')`, which holds the validated promo_type only when
that field itself passed validation. -/
def vDiscount (tyRes : Except String PromotionType) (v : Option ℚ) :
    Except String (Option ℚ) :=
  match v with
  | Option.none => .ok Option.none
  | some q =>
    if q < 0 then .error "ensure this value is greater than or equal to 0"
    else
      if tyRes.toOption = some PromotionType.percentage_off ∧ 100 < q then
        .error "Percentage discount cannot exceed 100%"
      else if tyRes.toOption = some PromotionType.dollar_off ∧ 10000 < q then
        .error "Dollar discount seems unreasonably high"
      else .ok (some q)

/-- `validate_date_range` on `end_date`: `values['start_date']` is always
present (the field has no constraints of its own). -/
def vEndDate (start : Option PyDate) (v : Option PyDate) :
    Except String (Option PyDate) :=
  match v with
  | Option.none => .ok Option.none
  | some e =>
    match start with
    | some s =>
      if PyDate.lt e s then .error "End date cannot be before start date"
      else .ok (some e)
    | Option.none => .ok (some e)

/-- `status` enumeration field with default `UNKNOWN`. -/
def vStatus (v : Option String) : Except String PromotionStatus :=
  match v with
  | Option.none => .ok PromotionStatus.unknown
  | some s =>
    match PromotionStatus.ofValue? s with
    | some t => .ok t
    | Option.none => .error "value is not a valid enumeration member"

/-- `Promotion(**raw)`: validate every field in declaration order, collecting
all violations. -/
def Promotion.ofRaw (raw : RawPromotion) (now : PyDateTime) :
    Except (List String) Promotion :=
  vApp (vApp (vApp (vApp (vApp (vApp (vApp (vApp (vApp (vApp (vApp (vApp (vApp (vApp (vApp (vApp (vApp (vApp (vApp
    (.ok Promotion.mk)
    (vReqStr 1 100 raw.competitor))
    (vCleanedName "Promotion title too short" raw.promo_title))
    (vUrlReq raw.promo_url))
    (vPromoType raw.promo_type))
    (vPromoCode raw.promo_code))
    (vDiscount (vPromoType raw.promo_type) raw.discount_value))
    (vNonNeg raw.minimum_purchase))
    (.ok raw.start_date))
    (vEndDate raw.start_date raw.end_date))
    (vStatus raw.status))
    (vOptStrMax 1000 raw.applicable_products))
    (vOptStrMax 1000 raw.exclusions))
    (vUrlOpt raw.image_url))
    (vOptStrMax 2000 raw.description))
    (vOptStrMax 3000 raw.terms_and_conditions))
    (vIntRange 1 5 raw.priority))
    (.ok (raw.collected_at.getD now)))
    (vRange 0 1 raw.extraction_confidence))
    (vOptStrMax 5000 raw.source_html_snippet)

/-! ## `DataQualityValidator` (`src/utils/validators.py`)

The quality checklist runs on the raw, pre-typed dictionary.  Text-valued keys
are modelled as optional strings (a non-string value there would raise
`AttributeError` inside `TextValidator` in the source and is outside the
model); the price-like keys may hold strings or numbers, which the source
feeds to `float(...)` inside a `try`. -/

/-- A raw dictionary value for the numeric keys. -/
inductive PyVal
  | str (s : String)
  | num (q : ℚ)
  | none
deriving DecidableEq, Repr

/-- Python truthiness of a raw value (`None`, `""` and `0` are falsy). -/
def PyVal.truthy : PyVal → Bool
  | .str s => decide (s ≠ "")
  | .num q => decide (q ≠ 0)
  | .none => false

/-- Python truthiness of `dict.get(key)` for a text key. -/
def optTruthy : Option String → Bool
  | some s => decide (s ≠ "")
  | Option.none => false

def digitsToNat (l : List Char) : Nat :=
  l.foldl (fun n c => 10 * n + (c.toNat - 48)) 0

/-- Python `float(s)` for plain decimal literals: optional sign, digits with an
optional fraction part, surrounding whitespace allowed; anything else raises
`ValueError` (modelled as no result).  Exponents and specials are outside the
model. -/
def pyFloatOfString? (s : String) : Option ℚ :=
  let l := (pyStrip s).data
  let sl : ℚ × List Char :=
    match l with
    | '-' :: t => (-1, t)
    | '+' :: t => (1, t)
    | t => (1, t)
  let ip := sl.2.takeWhile fun c => c.isDigit
  let r := sl.2.dropWhile fun c => c.isDigit
  match r with
  | [] => if ip = [] then Option.none else some (sl.1 * digitsToNat ip)
  | '.' :: fp =>
    if fp.all (fun c => c.isDigit) ∧ (ip ≠ [] ∨ fp ≠ []) then
      some (sl.1 * ((digitsToNat ip : ℚ) + (digitsToNat fp : ℚ) / (10 : ℚ) ^ fp.length))
    else Option.none
  | _ => Option.none

/-- Python `float(v)`: numbers pass through, strings are parsed, `None` raises
`TypeError` (no result; the source catches it). -/
def pyFloat? : PyVal → Option ℚ
  | .num q => some q
  | .str s => pyFloatOfString? s
  | .none => Option.none

/-- Models `validators.url` as used by `URLValidator.is_valid_url`: an
`http`/`https` scheme and a nonempty dotted host. -/
def is_valid_url (url : String) : Bool :=
  let rest : Option (List Char) :=
    if pyStartsWith url "http://" then some (url.data.drop 7)
    else if pyStartsWith url "https://" then some (url.data.drop 8)
    else Option.none
  match rest with
  | Option.none => false
  | some r =>
    let host := r.takeWhile fun c => ¬(c = '/' || c = '?' || c = '#')
    decide (host ≠ []) && host.contains '.'

/-- Control characters stripped by `clean_text` (0x00-0x1f, 0x7f-0x9f). -/
def isCtrlChar (c : Char) : Bool :=
  decide (c.toNat ≤ 31) || (decide (127 ≤ c.toNat) && decide (c.toNat ≤ 159))

/-- `TextValidator.clean_text`: `re.sub(r'\s+', ' ', text.strip())` (the same
collapse as `' '.join(text.split())`), then remove control characters. -/
def clean_text (text : String) : String :=
  if text = "" then ""
  else String.mk ((normalizeWs text).data.filter fun c => ¬isCtrlChar c)

/-- `[a-zA-Z0-9]`. -/
def isAlnumAscii (c : Char) : Bool := c.isAlpha || c.isDigit

/-- `TextValidator.is_meaningful_text`. -/
def is_meaningful_text (text : String) (min_length : Nat) : Bool :=
  if text = "" then false
  else
    if (clean_text text).length < min_length then false
    else (clean_text text).data.any isAlnumAscii

/-- `PriceValidator.is_reasonable_price` (defaults 0.01 and 100000.0). -/
def is_reasonable_price (price min_price max_price : ℚ) : Bool :=
  decide (min_price ≤ price) && decide (price ≤ max_price)

/-- The raw dictionary keys the quality checklists read. -/
structure RawData where
  competitor : Option String := Option.none
  product_name : Option String := Option.none
  product_url : Option String := Option.none
  price : PyVal := PyVal.none
  promo_title : Option String := Option.none
  promo_url : Option String := Option.none
  promo_type : Option String := Option.none
  discount_value : PyVal := PyVal.none
deriving Repr

/-- `DataQualityValidator.validate_product_data`: required fields, URL
validity, price range, name meaningfulness - appended in source order. -/
def validate_product_data (d : RawData) : List String :=
  (if ¬optTruthy d.competitor then ["Missing required field: competitor"] else []) ++
  (if ¬optTruthy d.product_name then ["Missing required field: product_name"] else []) ++
  (if ¬optTruthy d.product_url then ["Missing required field: product_url"] else []) ++
  (if optTruthy d.product_url then
    (if ¬is_valid_url (d.product_url.getD "") then ["Invalid product URL"] else [])
   else []) ++
  (if d.price.truthy then
    (match pyFloat? d.price with
     | some p =>
       if ¬is_reasonable_price p (1 / 100) 100000 then ["Price outside reasonable range"]
       else []
     | Option.none => ["Invalid price format"])
   else []) ++
  (if optTruthy d.product_name then
    (if ¬is_meaningful_text (d.product_name.getD "") 2 then ["Product name is not meaningful"]
     else [])
   else [])

/-- `DataQualityValidator.validate_promotion_data`. -/
def validate_promotion_data (d : RawData) : List String :=
  (if ¬optTruthy d.competitor then ["Missing required field: competitor"] else []) ++
  (if ¬optTruthy d.promo_title then ["Missing required field: promo_title"] else []) ++
  (if ¬optTruthy d.promo_url then ["Missing required field: promo_url"] else []) ++
  (if ¬optTruthy d.promo_type then ["Missing required field: promo_type"] else []) ++
  (if optTruthy d.promo_url then
    (if ¬is_valid_url (d.promo_url.getD "") then ["Invalid promotion URL"] else [])
   else []) ++
  (if d.discount_value.truthy then
    (match pyFloat? d.discount_value with
     | some disc =>
       if listHasSub (pyLower (d.promo_type.getD "")).data "percentage".data ∧ 100 < disc then
         ["Percentage discount cannot exceed 100%"]
       else if disc < 0 then ["Discount value cannot be negative"]
       else if 10000 < disc then ["Discount value seems unreasonably high"]
       else []
     | Option.none => ["Invalid discount value format"])
   else []) ++
  (if optTruthy d.promo_title then
    (if ¬is_meaningful_text (d.promo_title.getD "") 2 then ["Promotion title is not meaningful"]
     else [])
   else [])

/-- `DataQualityValidator.calculate_quality_score`:
`max(0.0, (total_checks - error_count) / total_checks)` with `total_checks = 8`
for products, `7` for promotions, and `0.0` for any other type tag. -/
def calculate_quality_score (data : RawData) (data_type : String) : ℚ :=
  if data_type = "product" then
    max 0 ((8 - ((validate_product_data data).length : ℚ)) / 8)
  else if data_type = "promotion" then
    max 0 ((7 - ((validate_promotion_data data).length : ℚ)) / 7)
  else 0

/-! ## `URLValidator.normalize_url` (`src/utils/validators.py`)

`urllib.parse.urlparse` (CPython 3.11) is modelled at character-list level:
- `urlsplit` preprocessing: lstrip of C0-control/space characters, removal of
  `\t`, `\r`, `\n` anywhere;
- the netloc split (up to the first of `/?#` after the scheme), then the
  fragment split at the first `#`, then the query split at the first `?`;
- `urlparse`'s `_splitparams`: a `;` in the *last* path segment starts the
  params, which `parsed.path` excludes;
- the `hostname` property (text after the last `@`, up to `:`, lowercased up
  to a `%` zone marker, `None` when empty; bracketed hosts keep the bracket
  contents) and the `port` property, whose `int(port, 10)` raises `ValueError`
  on a malformed port - modelled as `Except.error`, with only plain digit
  strings numeric.
`normalize_url` itself follows the source line by line: default scheme https,
default-port stripping, trailing-slash stripping on non-root paths, and
reassembly `scheme://netloc path [?query] [#fragment]`. -/

def urlUnsafeChar (c : Char) : Bool := c = '\t' || c = '\r' || c = '\n'

def c0OrSpace (c : Char) : Bool := decide (c.toNat ≤ 32)

/-- `urlsplit` preprocessing. -/
def urlClean (l : List Char) : List Char :=
  (l.dropWhile c0OrSpace).filter fun c => ¬urlUnsafeChar c

def netlocStop (c : Char) : Bool := c = '/' || c = '?' || c = '#'

/-- `_splitparams`: split `;params` off the last path segment (called only
when the path contains `;`). -/
def splitparams (url : List Char) : List Char × List Char :=
  if url.contains '/' then
    let seg := (url.reverse.takeWhile fun c => c ≠ '/').reverse
    if seg.contains ';' then
      (url.take (url.length - seg.length) ++ (seg.takeWhile fun c => c ≠ ';'),
       (seg.dropWhile fun c => c ≠ ';').tail)
    else (url, [])
  else
    (url.takeWhile fun c => c ≠ ';', (url.dropWhile fun c => c ≠ ';').tail)

/-- `netloc.rpartition('@')`: the part after the last `@`. -/
def afterLastAt (l : List Char) : List Char :=
  (l.reverse.takeWhile fun c => c ≠ '@').reverse

/-- `SplitResult._hostinfo`: hostname and port strings (empty port = absent). -/
def hostPort (netloc : List Char) : List Char × Option (List Char) :=
  let hi := afterLastAt netloc
  if hi.contains '[' then
    let bracketed := (hi.dropWhile fun c => c ≠ '[').tail
    let hostname := bracketed.takeWhile fun c => c ≠ ']'
    let afterBr := (bracketed.dropWhile fun c => c ≠ ']').tail
    let port := (afterBr.dropWhile fun c => c ≠ ':').tail
    (hostname, if port = [] then Option.none else some port)
  else
    let hostname := hi.takeWhile fun c => c ≠ ':'
    let port := (hi.dropWhile fun c => c ≠ ':').tail
    (hostname, if port = [] then Option.none else some port)

/-- `SplitResult.port`: `int(port, 10)` plus the 0-65535 range check. -/
def portVal? : Option (List Char) → Except String (Option Nat)
  | Option.none => .ok Option.none
  | some p =>
    if p ≠ [] ∧ p.all (fun c => c.isDigit) then
      if digitsToNat p ≤ 65535 then .ok (some (digitsToNat p))
      else .error "Port out of range 0-65535"
    else .error "Port could not be cast to integer value"

/-- `SplitResult.hostname`. -/
def hostnameOf (netloc : List Char) : Option (List Char) :=
  let h := (hostPort netloc).1
  if h = [] then Option.none
  else some ((h.takeWhile fun c => c ≠ '%').map Char.toLower ++
    (h.dropWhile fun c => c ≠ '%'))

def httpPre : List Char := "http://".data

def httpsPre : List Char := "https://".data

/-- The reconstruction `f"{scheme}://{netloc}{path}"` plus the conditional
query and fragment suffixes. -/
def urlRender (https : Bool) (netloc path query frag : List Char) : List Char :=
  (if https then httpsPre else httpPre) ++ netloc ++ path ++
    (if query ≠ [] then '?' :: query else []) ++
    (if frag ≠ [] then '#' :: frag else [])

/-- The components `urlparse` produces from the text after `scheme://`:
netloc up to the first of `/?#`, fragment after the first `#`, query after the
first `?` of what precedes the fragment, path with params split off. -/
structure UrlParts where
  netloc : List Char
  path : List Char
  query : List Char
  frag : List Char
deriving DecidableEq, Repr

def parseRest (rest : List Char) : UrlParts :=
  let netloc := rest.takeWhile fun c => ¬netlocStop c
  let r1 := rest.dropWhile fun c => ¬netlocStop c
  let r2 := r1.takeWhile fun c => c ≠ '#'
  let frag := (r1.dropWhile fun c => c ≠ '#').tail
  let path0 := r2.takeWhile fun c => c ≠ '?'
  let query := (r2.dropWhile fun c => c ≠ '?').tail
  let path := if path0.contains ';' then (splitparams path0).1 else path0
  ⟨netloc, path, query, frag⟩

/-- `normalize_url` on character lists. -/
def normalizeCore (u : List Char) : Except String (List Char) :=
  if u = [] then .ok u
  else
    let s := if listStartsWith u httpPre || listStartsWith u httpsPre then u
      else httpsPre ++ u
    let cleaned := urlClean s
    let https := listStartsWith cleaned httpsPre
    let parts := parseRest (cleaned.drop (if https then 8 else 7))
    (portVal? (hostPort parts.netloc).2).map fun port =>
      let defaultPort := (¬https = true ∧ port = some 80) ∨
        (https = true ∧ port = some 443)
      let netloc2 := if defaultPort then
          (match hostnameOf parts.netloc with
           | some h => h
           | Option.none => "None".data)
        else parts.netloc
      let path2 := if parts.path = ['/'] then parts.path
        else (parts.path.reverse.dropWhile fun c => c = '/').reverse
      urlRender https netloc2 path2 parts.query parts.frag

/-- `URLValidator.normalize_url` (it can raise, through `parsed.port`). -/
def normalize_url (url : String) : Except String String :=
  (normalizeCore url.data).map String.mk

/-! # Theorems -/

/-- **C9**. For every Competitor, `get_estimated_pages()` returns
`url_count + url_count * min(depth - 1, limit // 10)` where `url_count` is the
number of new_urls plus the number of promo_urls and `//` is floor division. -/
theorem competitor_estimated_pages_formula (c : Competitor) :
    c.get_estimated_pages =
      ((c.new_urls.length : Int) + (c.promo_urls.length : Int)) +
        ((c.new_urls.length : Int) + (c.promo_urls.length : Int)) *
          min (c.crawl.depth - 1) (Int.fdiv c.crawl.limit 10) := by
  rfl

/-- **C7**. For non-negative counters, `get_success_rate()` is
`successful / (successful + failed)` when at least one attempt is recorded and
`0.0` when both counters are zero, for both `ProductList` and `PromotionList`;
in particular `successful=8, failed=2` gives exactly `0.8`. -/
theorem success_rate_spec (p : ProductListCounters) (q : PromotionListCounters)
    (hp1 : 0 ≤ p.successful_extractions) (hp2 : 0 ≤ p.failed_extractions)
    (hq1 : 0 ≤ q.successful_extractions) (hq2 : 0 ≤ q.failed_extractions) :
    (0 < p.successful_extractions + p.failed_extractions →
      p.get_success_rate = (p.successful_extractions : ℚ) /
        ((p.successful_extractions : ℚ) + (p.failed_extractions : ℚ))) ∧
    (p.successful_extractions = 0 → p.failed_extractions = 0 →
      p.get_success_rate = 0) ∧
    (0 < q.successful_extractions + q.failed_extractions →
      q.get_success_rate = (q.successful_extractions : ℚ) /
        ((q.successful_extractions : ℚ) + (q.failed_extractions : ℚ))) ∧
    (q.successful_extractions = 0 → q.failed_extractions = 0 →
      q.get_success_rate = 0) ∧
    (ProductListCounters.get_success_rate
      { competitor := "x", successful_extractions := 8, failed_extractions := 2 } = 8 / 10) := by
  refine ⟨?_, ?_, ?_, ?_, ?_⟩
  · intro h
    simp only [ProductListCounters.get_success_rate, if_pos h]
    push_cast
    ring_nf
  · intro h1 h2
    simp [ProductListCounters.get_success_rate, h1, h2]
  · intro h
    simp only [PromotionListCounters.get_success_rate, if_pos h]
    push_cast
    ring_nf
  · intro h1 h2
    simp [PromotionListCounters.get_success_rate, h1, h2]
  · norm_num [ProductListCounters.get_success_rate]

/-- Witness for C7: concrete counters 8/2 and 0/0. -/
theorem success_rate_spec_witness :
    (ProductListCounters.get_success_rate
      { competitor := "x", successful_extractions := 8, failed_extractions := 2 } = 8 / 10) ∧
    (ProductListCounters.get_success_rate
      { competitor := "x", successful_extractions := 0, failed_extractions := 0 } = 0) := by
  have h := success_rate_spec
    { competitor := "x", successful_extractions := 0, failed_extractions := 0 }
    { competitor := "x" } (by decide) (by decide) (by decide) (by decide)
  exact ⟨h.2.2.2.2, h.2.1 rfl rfl⟩

/-- **C5**. Date parsing tries the formats in the fixed source order
(ISO, US slash, EU slash, long month, abbreviated month, day-first long,
day-first abbreviated, full timestamp) and returns the first success;
consequently `"January 15, 2024"`, `"01/15/2024"` and `"2024-01-15"` all
parse to January 15, 2024 (and an unparseable string yields nothing). -/
theorem parse_date_three_formats_agree :
    parse_date "January 15, 2024" = some ⟨2024, 1, 15, 0, 0, 0⟩ ∧
    parse_date "01/15/2024" = some ⟨2024, 1, 15, 0, 0, 0⟩ ∧
    parse_date "2024-01-15" = some ⟨2024, 1, 15, 0, 0, 0⟩ ∧
    parse_date "not a date" = Option.none := by
  refine ⟨?_, ?_, ?_, ?_⟩ <;> decide

/-- Error-collecting application succeeds iff both sides do. -/
theorem exOk_vApp {α β : Type} (x : Except (List String) (α → β))
    (y : Except String α) : exOk (vApp x y) = (exOk x && exOk y) := by
  cases x <;> cases y <;> rfl

theorem exOk_error {ε α : Type} (e : ε) :
    exOk (Except.error e : Except ε α) = false := rfl

theorem exOk_ok {ε α : Type} (a : α) :
    exOk (Except.ok a : Except ε α) = true := rfl

/-- **C1** (the claim is the intended behaviour; the code deviates).
`Product.validate_category` was written to coerce unknown category strings to
`OTHER`, but it is a plain (post) `@validator`: pydantic's own enum coercion
for the `category` field runs first and raises `ValidationError` on any string
that is not an exact enumeration value, so construction with
`category="sofa"` fails even though the validator body would have coerced
`"sofa"` to `OTHER`.  The fallback branch is dead code. -/
theorem product_unknown_category_rejected :
    Product.ofRaw
      { competitor := some "West Elm", product_name := some "Modern Sofa",
        product_url := some "https://example.com/p", category := some "sofa" }
      ⟨2024, 1, 1, 0, 0, 0⟩ =
      .error ["value is not a valid enumeration member"] ∧
    validate_category_body "sofa" = ProductCategory.other := by
  exact ⟨rfl, rfl⟩

/-- **C3**. A `Promotion` whose `promo_type` is `percentage_off` and whose
`discount_value` exceeds 100 never constructs: `validate_discount_value`
raises, so the aggregated validation fails whatever the other fields are. -/
theorem percentage_discount_over_100_rejected
    (raw : RawPromotion) (now : PyDateTime) (q : ℚ)
    (hty : raw.promo_type = some "percentage_off")
    (hdv : raw.discount_value = some q) (hq : 100 < q) :
    exOk (Promotion.ofRaw raw now) = false := by
  have h1 : vPromoType raw.promo_type = .ok PromotionType.percentage_off := by
    rw [hty]; rfl
  have h2 : vDiscount (vPromoType raw.promo_type) raw.discount_value =
      .error "Percentage discount cannot exceed 100%" := by
    rw [hdv, h1]
    have hq0 : ¬(q < 0) := by intro h; exact absurd (lt_trans h (by norm_num)) (not_lt.mpr hq.le)
    simp [vDiscount, hq0, Except.toOption, hq]
  simp only [Promotion.ofRaw, exOk_vApp, h2, exOk_error, Bool.and_false, Bool.false_and]

/-- Witness for C3: a concrete 150%-off promotion is rejected. -/
theorem percentage_discount_over_100_rejected_witness :
    exOk (Promotion.ofRaw
      { competitor := some "Test", promo_title := some "Test Sale",
        promo_url := some "https://example.com/sale",
        promo_type := some "percentage_off", discount_value := some 150 }
      ⟨2024, 1, 1, 0, 0, 0⟩) = false :=
  percentage_discount_over_100_rejected _ _ 150 rfl rfl (by norm_num)

/-- **C8**. `promo_code` normalization on construction: `"CODE: SAVE20"` is
stored as `"SAVE20"` and `"save10"` is stored as `"SAVE10"`. -/
theorem promo_code_normalization_examples :
    ((Promotion.ofRaw
      { competitor := some "Test", promo_title := some "Test Sale",
        promo_url := some "https://example.com/sale",
        promo_type := some "percentage_off",
        promo_code := some "CODE: SAVE20" }
      ⟨2024, 1, 1, 0, 0, 0⟩).toOption.map Promotion.promo_code
        = some (some "SAVE20")) ∧
    ((Promotion.ofRaw
      { competitor := some "Test", promo_title := some "Test Sale",
        promo_url := some "https://example.com/sale",
        promo_type := some "percentage_off",
        promo_code := some "save10" }
      ⟨2024, 1, 1, 0, 0, 0⟩).toOption.map Promotion.promo_code
        = some (some "SAVE10")) := by
  exact ⟨rfl, rfl⟩

/-- **C10**. In `to_csv_dict`, `float(self.price) if self.price else None`
tests truthiness and `Decimal("0")` is falsy, so a constructed product whose
price (or original_price) is exactly 0 exports that column as `None` -
indistinguishable from an absent price. -/
theorem zero_price_exported_as_none
    (raw : RawProduct) (now : PyDateTime) (p : Product)
    (hp : Product.ofRaw raw now = .ok p) :
    (p.price = some 0 → (Product.to_csv_dict p).price = Option.none) ∧
    (p.original_price = some 0 →
      (Product.to_csv_dict p).original_price = Option.none) := by
  constructor <;> intro h <;> simp [Product.to_csv_dict, h]

/-- Witness for C10: a product constructed with `price=0, original_price=0`
exports both columns as `None`. -/
theorem zero_price_exported_as_none_witness :
    Product.ofRaw
      { competitor := some "Test Store", product_name := some "Test Product",
        product_url := some "https://example.com/p",
        price := some 0, original_price := some 0 }
      ⟨2024, 1, 1, 0, 0, 0⟩ =
      .ok { competitor := "Test Store", product_name := "Test Product",
            product_url := ⟨"https://example.com/p"⟩,
            price := some 0, original_price := some 0,
            collected_at := ⟨2024, 1, 1, 0, 0, 0⟩ } ∧
    (Product.to_csv_dict
      { competitor := "Test Store", product_name := "Test Product",
        product_url := ⟨"https://example.com/p"⟩,
        price := some 0, original_price := some 0,
        collected_at := ⟨2024, 1, 1, 0, 0, 0⟩ }).price = Option.none ∧
    (Product.to_csv_dict
      { competitor := "Test Store", product_name := "Test Product",
        product_url := ⟨"https://example.com/p"⟩,
        price := some 0, original_price := some 0,
        collected_at := ⟨2024, 1, 1, 0, 0, 0⟩ }).original_price = Option.none := by
  have h : Product.ofRaw
      { competitor := some "Test Store", product_name := some "Test Product",
        product_url := some "https://example.com/p",
        price := some 0, original_price := some 0 }
      ⟨2024, 1, 1, 0, 0, 0⟩ =
      .ok { competitor := "Test Store", product_name := "Test Product",
            product_url := ⟨"https://example.com/p"⟩,
            price := some 0, original_price := some 0,
            collected_at := ⟨2024, 1, 1, 0, 0, 0⟩ } := rfl
  exact ⟨h, (zero_price_exported_as_none _ _ _ h).1 rfl,
    (zero_price_exported_as_none _ _ _ h).2 rfl⟩

/-- **C6**. For every raw dictionary, `calculate_quality_score` equals
`max(0, (N - v) / N)` where `v` is the violation count of the corresponding
checklist and `N` is 8 for products and 7 for promotions; the score always
lies in `[0, 1]`. -/
theorem quality_score_formula_and_bounds (d : RawData) :
    calculate_quality_score d "product" =
      max 0 ((8 - ((validate_product_data d).length : ℚ)) / 8) ∧
    calculate_quality_score d "promotion" =
      max 0 ((7 - ((validate_promotion_data d).length : ℚ)) / 7) ∧
    0 ≤ calculate_quality_score d "product" ∧
    calculate_quality_score d "product" ≤ 1 ∧
    0 ≤ calculate_quality_score d "promotion" ∧
    calculate_quality_score d "promotion" ≤ 1 := by
  have hb : ∀ (n : ℕ) (N : ℚ), 0 < N →
      0 ≤ max 0 ((N - (n : ℚ)) / N) ∧ max 0 ((N - (n : ℚ)) / N) ≤ 1 := by
    intro n N hN
    refine ⟨le_max_left 0 _, max_le (by linarith) ?_⟩
    rw [div_le_one hN]
    have : (0 : ℚ) ≤ (n : ℚ) := Nat.cast_nonneg n
    linarith
  have h1 : calculate_quality_score d "product" =
      max 0 ((8 - ((validate_product_data d).length : ℚ)) / 8) := by
    simp [calculate_quality_score]
  have h2 : calculate_quality_score d "promotion" =
      max 0 ((7 - ((validate_promotion_data d).length : ℚ)) / 7) := by
    simp [calculate_quality_score]
  refine ⟨h1, h2, ?_, ?_, ?_, ?_⟩
  · rw [h1]; exact (hb _ 8 (by norm_num)).1
  · rw [h1]; exact (hb _ 8 (by norm_num)).2
  · rw [h2]; exact (hb _ 7 (by norm_num)).1
  · rw [h2]; exact (hb _ 7 (by norm_num)).2

/-! ### Whitespace-normalization support lemmas for C2 -/

theorem string_data_ne {s : String} (h : s ≠ "") : s.data ≠ [] := by
  intro hd
  apply h
  cases s with
  | mk l => cases hd; rfl

theorem one_le_length_of_ne {s : String} (h : s ≠ "") : 1 ≤ s.length := by
  have hd := string_data_ne h
  have he : s.length = s.data.length := rfl
  rw [he]
  exact List.length_pos.mpr hd

theorem mem_of_getLast?_eq {α : Type} {l : List α} {a : α}
    (h : l.getLast? = some a) : a ∈ l := by
  induction l with
  | nil => simp at h
  | cons b t ih =>
    cases t with
    | nil =>
      simp at h
      simp [h]
    | cons c u =>
      rw [List.getLast?_cons_cons] at h
      exact List.mem_cons_of_mem b (ih h)

theorem pyWordsAux_sound (l : List Char) : ∀ (acc : List Char),
    (∀ c ∈ acc, pyIsSpace c = false) →
    ∀ w ∈ pyWordsAux acc l, w ≠ [] ∧ ∀ c ∈ w, pyIsSpace c = false := by
  induction l with
  | nil =>
    intro acc hacc w hw
    simp only [pyWordsAux] at hw
    split at hw
    · simp at hw
    · next hne =>
      simp at hw
      subst hw
      refine ⟨by simpa using hne, ?_⟩
      intro c hc
      exact hacc c (List.mem_reverse.mp hc)
  | cons c rest ih =>
    intro acc hacc w hw
    simp only [pyWordsAux] at hw
    split at hw
    · split at hw
      · exact ih [] (by simp) w hw
      · next hne =>
        rcases List.mem_cons.mp hw with h | h
        · subst h
          refine ⟨by simpa using hne, ?_⟩
          intro d hd
          exact hacc d (List.mem_reverse.mp hd)
        · exact ih [] (by simp) w h
    · next hsp =>
      refine ih (c :: acc) ?_ w hw
      intro d hd
      rcases List.mem_cons.mp hd with h | h
      · subst h
        simpa using hsp
      · exact hacc d h

theorem pyWords_sound (l : List Char) :
    ∀ w ∈ pyWords l, w ≠ [] ∧ ∀ c ∈ w, pyIsSpace c = false :=
  pyWordsAux_sound l [] (by simp)

theorem joinSpace_head (ws : List (List Char))
    (hw : ∀ w ∈ ws, w ≠ [] ∧ ∀ c ∈ w, pyIsSpace c = false) :
    ∀ c, (joinSpace ws).head? = some c → pyIsSpace c = false := by
  cases ws with
  | nil => intro c hc; simp [joinSpace] at hc
  | cons w ws =>
    intro c hc
    have hw1 := hw w (by simp)
    cases ws with
    | nil =>
      simp only [joinSpace] at hc
      cases w with
      | nil => exact absurd rfl hw1.1
      | cons a t =>
        simp at hc
        subst hc
        exact hw1.2 a (by simp)
    | cons v vs =>
      simp only [joinSpace] at hc
      cases w with
      | nil => exact absurd rfl hw1.1
      | cons a t =>
        simp at hc
        subst hc
        exact hw1.2 a (by simp)

theorem joinSpace_ne_nil (ws : List (List Char)) (h0 : ws ≠ [])
    (hw : ∀ w ∈ ws, w ≠ []) : joinSpace ws ≠ [] := by
  cases ws with
  | nil => exact absurd rfl h0
  | cons w ws =>
    cases ws with
    | nil => simpa [joinSpace] using hw w (by simp)
    | cons v vs =>
      simp only [joinSpace]
      intro hc
      exact absurd (List.append_eq_nil.mp hc).1 (hw w (by simp))

theorem joinSpace_getLast (ws : List (List Char))
    (hw : ∀ w ∈ ws, w ≠ [] ∧ ∀ c ∈ w, pyIsSpace c = false) :
    ∀ c, (joinSpace ws).getLast? = some c → pyIsSpace c = false := by
  induction ws with
  | nil => intro c hc; simp [joinSpace] at hc
  | cons w ws ih =>
    intro c hc
    cases ws with
    | nil =>
      simp only [joinSpace] at hc
      exact (hw w (by simp)).2 c (mem_of_getLast?_eq hc)
    | cons v vs =>
      simp only [joinSpace] at hc
      rw [List.getLast?_append_cons] at hc
      have hne : joinSpace (v :: vs) ≠ [] :=
        joinSpace_ne_nil (v :: vs) (by simp)
          (fun u hu => (hw u (List.mem_cons_of_mem w hu)).1)
      have hx : (' ' :: joinSpace (v :: vs)).getLast? =
          (joinSpace (v :: vs)).getLast? := by
        have h2 := List.getLast?_append_of_ne_nil [' '] hne
        simpa using h2
      rw [hx] at hc
      exact ih (fun u hu => hw u (List.mem_cons_of_mem w hu)) c hc

theorem stripList_eq_self {l : List Char}
    (h1 : ∀ c, l.head? = some c → pyIsSpace c = false)
    (h2 : ∀ c, l.getLast? = some c → pyIsSpace c = false) :
    ((l.dropWhile fun c => pyIsSpace c).reverse.dropWhile
      fun c => pyIsSpace c).reverse = l := by
  have e1 : (l.dropWhile fun c => pyIsSpace c) = l := by
    cases l with
    | nil => rfl
    | cons a t =>
      rw [List.dropWhile_cons, if_neg]
      simp [h1 a rfl]
  rw [e1]
  have e2 : (l.reverse.dropWhile fun c => pyIsSpace c) = l.reverse := by
    cases hr : l.reverse with
    | nil => rfl
    | cons a t =>
      have hl : l.getLast? = some a := by
        have : l = t.reverse ++ [a] := by
          have := congrArg List.reverse hr
          simpa using this
        rw [this, List.getLast?_append_cons]
        rfl
      rw [List.dropWhile_cons, if_neg]
      simp [h2 a hl]
  rw [e2, List.reverse_reverse]

theorem pyStrip_normalizeWs (s : String) : pyStrip (normalizeWs s) = normalizeWs s := by
  have hws := pyWords_sound s.data
  have h1 := joinSpace_head (pyWords s.data) hws
  have h2 := joinSpace_getLast (pyWords s.data) hws
  show String.mk _ = String.mk _
  rw [show (normalizeWs s).data = joinSpace (pyWords s.data) from rfl]
  rw [stripList_eq_self h1 h2]

/-! ### Field-validator success lemmas for C2 -/

theorem httpUrl_parse_raw {s : String} {w : HttpUrl}
    (h : HttpUrl.parse? s = some w) : w.raw = s ∧ s ≠ "" := by
  simp only [HttpUrl.parse?] at h
  split at h
  · split at h
    · split at h
      · next hlen hpre hhost =>
        refine ⟨by cases (Option.some.inj h); rfl, ?_⟩
        intro he
        subst he
        exact absurd hpre (by decide)
      · exact absurd h (by simp)
    · split at h
      · split at h
        · next hlen hpre hpre2 hhost =>
          refine ⟨by cases (Option.some.inj h); rfl, ?_⟩
          intro he
          subst he
          exact absurd hpre2 (by decide)
        · exact absurd h (by simp)
      · exact absurd h (by simp)
  · exact absurd h (by simp)

theorem vReqStr_ok {hi : Nat} {c : String} (h1 : c ≠ "") (h2 : c.length ≤ hi) :
    vReqStr 1 hi (some c) = .ok c := by
  have l1 : ¬(c.length < 1) := by
    have := one_le_length_of_ne h1
    omega
  have l2 : ¬(hi < c.length) := by omega
  simp [vReqStr, l1, l2]

theorem vCleanedName_ok {msg n : String}
    (h1 : n.length ≤ 500) (h2 : 2 ≤ (normalizeWs n).length) :
    vCleanedName msg (some n) = .ok (normalizeWs n) := by
  have hne : n ≠ "" := by
    intro he
    rw [he] at h2
    exact absurd h2 (by decide)
  have l0 : ¬(n.length < 1) := by
    have := one_le_length_of_ne hne
    omega
  have l1 : ¬(500 < n.length) := by omega
  have l4 : ¬((pyStrip (normalizeWs n)).length < 2) := by
    rw [pyStrip_normalizeWs]
    omega
  simp [vCleanedName, l0, l1, hne, l4]

theorem vUrlReq_ok {u : String} {w : HttpUrl} (h : HttpUrl.parse? u = some w) :
    vUrlReq (some u) = .ok w := by
  simp [vUrlReq, h]

theorem vOptStrMax_ok {hi : Nat} {v : Option String}
    (h : v = Option.none ∨ ∃ s, v = some s ∧ s.length ≤ hi) :
    ∃ r, vOptStrMax hi v = .ok r := by
  rcases h with rfl | ⟨s, rfl, hs⟩
  · exact ⟨Option.none, rfl⟩
  · exact ⟨some s, by simp [vOptStrMax, Nat.not_lt.mpr hs]⟩

theorem vCategory_ok {v : Option String}
    (h : v = Option.none ∨
      ∃ s cat, v = some s ∧ ProductCategory.ofValue? s = some cat) :
    ∃ r, vCategory v = .ok r := by
  rcases h with rfl | ⟨s, cat, rfl, hc⟩
  · exact ⟨Option.none, rfl⟩
  · exact ⟨some (validate_category_body cat.value), by simp [vCategory, hc]⟩

theorem vPrice_ok {v : Option ℚ}
    (h : v = Option.none ∨
      ∃ q, v = some q ∧ 0 ≤ q ∧ q ≤ 100000 ∧ 100 % q.den = 0) :
    ∃ r, vPrice v = .ok r := by
  rcases h with rfl | ⟨q, rfl, h0, h1, h2⟩
  · exact ⟨Option.none, rfl⟩
  · exact ⟨some q, by simp [vPrice, not_lt.mpr h0, not_lt.mpr h1, h2]⟩

theorem vUrlOpt_ok {v : Option String}
    (h : v = Option.none ∨ ∃ s iw, v = some s ∧ HttpUrl.parse? s = some iw) :
    ∃ r, vUrlOpt v = .ok r := by
  rcases h with rfl | ⟨s, iw, rfl, hw⟩
  · exact ⟨Option.none, rfl⟩
  · exact ⟨some iw, by simp [vUrlOpt, hw]⟩

theorem vRange_ok {lo hi : ℚ} {v : Option ℚ}
    (h : v = Option.none ∨ ∃ q, v = some q ∧ lo ≤ q ∧ q ≤ hi) :
    ∃ r, vRange lo hi v = .ok r := by
  rcases h with rfl | ⟨q, rfl, h0, h1⟩
  · exact ⟨Option.none, rfl⟩
  · exact ⟨some q, by simp [vRange, not_lt.mpr h0, not_lt.mpr h1]⟩

theorem vReviewCount_ok {v : Option Int}
    (h : v = Option.none ∨ ∃ k, v = some k ∧ 0 ≤ k) :
    ∃ r, vReviewCount v = .ok r := by
  rcases h with rfl | ⟨k, rfl, h0⟩
  · exact ⟨Option.none, rfl⟩
  · exact ⟨some k, by simp [vReviewCount, not_lt.mpr h0]⟩

/-- **C2**. Every Product input with a non-empty competitor (within its length
bound), a product_name whose whitespace-normalized form has length at least 2
(raw length within bound), a parseable product_url, and all other fields valid
or absent constructs successfully, and the record satisfies
`is_valid_for_export()`. -/
theorem valid_product_constructs_and_exports
    (raw : RawProduct) (now : PyDateTime) (c n u : String) (w : HttpUrl)
    (hc : raw.competitor = some c) (hc1 : c ≠ "") (hc2 : c.length ≤ 100)
    (hn : raw.product_name = some n) (hn1 : n.length ≤ 500)
    (hn2 : 2 ≤ (normalizeWs n).length)
    (hu : raw.product_url = some u) (hw : HttpUrl.parse? u = some w)
    (hbrand : raw.brand = Option.none ∨ ∃ s, raw.brand = some s ∧ s.length ≤ 100)
    (hcat : raw.category = Option.none ∨
      ∃ s cat, raw.category = some s ∧ ProductCategory.ofValue? s = some cat)
    (hpr : raw.price = Option.none ∨
      ∃ q, raw.price = some q ∧ 0 ≤ q ∧ q ≤ 100000 ∧ 100 % q.den = 0)
    (hopr : raw.original_price = Option.none ∨
      ∃ q, raw.original_price = some q ∧ 0 ≤ q ∧ q ≤ 100000 ∧ 100 % q.den = 0)
    (himg : raw.image_url = Option.none ∨
      ∃ s iw, raw.image_url = some s ∧ HttpUrl.parse? s = some iw)
    (hdesc : raw.description = Option.none ∨
      ∃ s, raw.description = some s ∧ s.length ≤ 2000)
    (havl : raw.availability = Option.none ∨
      ∃ s, raw.availability = some s ∧ s.length ≤ 50)
    (hrat : raw.rating = Option.none ∨ ∃ q, raw.rating = some q ∧ 0 ≤ q ∧ q ≤ 5)
    (hrc : raw.review_count = Option.none ∨ ∃ k, raw.review_count = some k ∧ 0 ≤ k)
    (hsku : raw.sku = Option.none ∨ ∃ s, raw.sku = some s ∧ s.length ≤ 100)
    (hconf : raw.extraction_confidence = Option.none ∨
      ∃ q, raw.extraction_confidence = some q ∧ 0 ≤ q ∧ q ≤ 1)
    (hsnip : raw.source_html_snippet = Option.none ∨
      ∃ s, raw.source_html_snippet = some s ∧ s.length ≤ 5000) :
    ∃ p, Product.ofRaw raw now = .ok p ∧ p.is_valid_for_export = true := by
  obtain ⟨bv, hb⟩ := vOptStrMax_ok hbrand
  obtain ⟨cv, hcv⟩ := vCategory_ok hcat
  obtain ⟨pv, hpv⟩ := vPrice_ok hpr
  obtain ⟨opv, hopv⟩ := vPrice_ok hopr
  obtain ⟨iv, hiv⟩ := vUrlOpt_ok himg
  obtain ⟨dv, hdv⟩ := vOptStrMax_ok hdesc
  obtain ⟨av, hav2⟩ := vOptStrMax_ok havl
  obtain ⟨rv, hrv⟩ := vRange_ok hrat
  obtain ⟨rcv, hrcv⟩ := vReviewCount_ok hrc
  obtain ⟨skv, hskv⟩ := vOptStrMax_ok hsku
  obtain ⟨cfv, hcfv⟩ := vRange_ok hconf
  obtain ⟨snv, hsnv⟩ := vOptStrMax_ok hsnip
  have hres : Product.ofRaw raw now = .ok
      { competitor := c, product_name := normalizeWs n, product_url := w,
        brand := bv, category := cv, price := pv, original_price := opv,
        launch_date := raw.launch_date, image_url := iv, description := dv,
        availability := av, rating := rv, review_count := rcv, sku := skv,
        collected_at := raw.collected_at.getD now,
        extraction_confidence := cfv, source_html_snippet := snv } := by
    unfold Product.ofRaw
    rw [hc, hn, hu, vReqStr_ok hc1 hc2, vCleanedName_ok hn1 hn2, vUrlReq_ok hw,
      hb, hcv, hpv, hopv, hiv, hdv, hav2, hrv, hrcv, hskv, hcfv, hsnv]
    rfl
  refine ⟨_, hres, ?_⟩
  have hraw := httpUrl_parse_raw hw
  have hwne : w.raw ≠ "" := by
    rw [hraw.1]
    exact hraw.2
  have hnn : normalizeWs n ≠ "" := by
    intro he
    rw [he] at hn2
    exact absurd hn2 (by decide)
  simp [Product.is_valid_for_export, hc1, hnn, hwne, pyStrip_normalizeWs, hn2]

/-- Witness for C2: a concrete valid raw product constructs and is
export-valid. -/
theorem valid_product_constructs_and_exports_witness :
    ∃ p, Product.ofRaw
      { competitor := some "West Elm", product_name := some " Modern  Sofa ",
        product_url := some "https://example.com/p" }
      ⟨2024, 1, 1, 0, 0, 0⟩ = .ok p ∧ p.is_valid_for_export = true :=
  valid_product_constructs_and_exports _ ⟨2024, 1, 1, 0, 0, 0⟩
    "West Elm" " Modern  Sofa " "https://example.com/p" ⟨"https://example.com/p"⟩
    rfl (by decide) (by decide) rfl (by decide) (by decide) rfl rfl
    (Or.inl rfl) (Or.inl rfl) (Or.inl rfl) (Or.inl rfl) (Or.inl rfl)
    (Or.inl rfl) (Or.inl rfl) (Or.inl rfl) (Or.inl rfl) (Or.inl rfl)
    (Or.inl rfl) (Or.inl rfl)

/-! ### Toolkit for the `normalize_url` idempotence proof (C4) -/

theorem listStartsWith_nil (l : List Char) : listStartsWith l [] = true := by
  cases l <;> rfl

theorem listStartsWith_append (p t : List Char) :
    listStartsWith (p ++ t) p = true := by
  induction p with
  | nil => exact listStartsWith_nil t
  | cons a as ih => simp [listStartsWith, ih]

theorem dropWhile_suffix_ex (p : Char → Bool) (l : List Char) :
    ∃ t, t ++ l.dropWhile p = l := by
  induction l with
  | nil => exact ⟨[], rfl⟩
  | cons a l ih =>
    rw [List.dropWhile_cons]
    split
    · obtain ⟨t, ht⟩ := ih
      exact ⟨a :: t, by simp [ht]⟩
    · exact ⟨[], rfl⟩

theorem dropWhile_idem (p : Char → Bool) (l : List Char) :
    (l.dropWhile p).dropWhile p = l.dropWhile p := by
  induction l with
  | nil => rfl
  | cons a l ih =>
    rw [List.dropWhile_cons]
    split
    · exact ih
    · next h => rw [List.dropWhile_cons, if_neg h]

/-- `rstripSlash` is idempotent. -/
theorem rstripSlash_idem (l : List Char) :
    ((((l.reverse.dropWhile fun c => c = '/').reverse).reverse.dropWhile
      fun c => c = '/').reverse) =
      (l.reverse.dropWhile fun c => c = '/').reverse := by
  rw [List.reverse_reverse, dropWhile_idem]

/-- The rstripped path is a prefix of the path. -/
theorem rstripSlash_append_ex (l : List Char) :
    ∃ t, (l.reverse.dropWhile fun c => c = '/').reverse ++ t = l := by
  obtain ⟨t, ht⟩ := dropWhile_suffix_ex (fun c => c = '/') l.reverse
  refine ⟨t.reverse, ?_⟩
  have h2 := congrArg List.reverse ht
  simpa using h2

theorem toNat_toLower_of_upper {c : Char} (h : 65 ≤ c.toNat ∧ c.toNat ≤ 90) :
    (Char.toLower c).toNat = c.toNat + 32 := by
  have hv : Nat.isValidChar (c.toNat + 32) := Or.inl (by omega)
  simp only [Char.toLower]
  rw [if_pos h, Char.ofNat, dif_pos hv]
  rfl

theorem toLower_eq_or (c : Char) :
    Char.toLower c = c ∨
      (97 ≤ (Char.toLower c).toNat ∧ (Char.toLower c).toNat ≤ 122) := by
  by_cases h : 65 ≤ c.toNat ∧ c.toNat ≤ 90
  · right
    rw [toNat_toLower_of_upper h]
    omega
  · left
    simp only [Char.toLower]
    split
    · next hc => exact absurd hc h
    · rfl

theorem ne_of_lowercase_range {d e : Char} (h1 : 97 ≤ d.toNat)
    (h2 : d.toNat ≤ 122) (he : e.toNat < 97 ∨ 122 < e.toNat) : d ≠ e := by
  intro hde
  subst hde
  omega

theorem contains_eq_false_of_forall {l : List Char} {a : Char}
    (h : ∀ c ∈ l, c ≠ a) : l.contains a = false := by
  simp only [List.contains, List.elem_eq_mem, decide_eq_false_iff_not]
  intro hmem
  exact absurd rfl (h a hmem)

theorem takeWhile_eq_nil_of_head {p : Char → Bool} {l : List Char}
    (h : l = [] ∨ ∃ c t, l = c :: t ∧ p c = false) : l.takeWhile p = [] := by
  rcases h with rfl | ⟨c, t, rfl, hc⟩
  · rfl
  · simp [List.takeWhile_cons, hc]

theorem dropWhile_eq_self_of_head {p : Char → Bool} {l : List Char}
    (h : l = [] ∨ ∃ c t, l = c :: t ∧ p c = false) : l.dropWhile p = l := by
  rcases h with rfl | ⟨c, t, rfl, hc⟩
  · rfl
  · simp [List.dropWhile_cons, hc]

/-- Reparsing the rendered remainder `netloc path [?query] [#fragment]`
recovers exactly its components. -/
theorem parseRest_spec {N P Q F : List Char}
    (hN : ∀ c ∈ N, netlocStop c = false)
    (hP0 : P = [] ∨ P.head? = some '/')
    (hPc : ∀ c ∈ P, c ≠ '?' ∧ c ≠ '#' ∧ c ≠ ';')
    (hQ : ∀ c ∈ Q, c ≠ '#') :
    parseRest (N ++ (P ++ ((if Q ≠ [] then '?' :: Q else []) ++
      (if F ≠ [] then '#' :: F else [])))) = ⟨N, P, Q, F⟩ := by
  have hq1 : (Q = [] ∧ (if Q ≠ [] then '?' :: Q else []) = []) ∨
      (if Q ≠ [] then '?' :: Q else []) = '?' :: Q := by
    by_cases hq : Q = [] <;> simp [hq]
  have hf1 : (F = [] ∧ (if F ≠ [] then '#' :: F else []) = []) ∨
      (if F ≠ [] then '#' :: F else []) = '#' :: F := by
    by_cases hf : F = [] <;> simp [hf]
  set q1 := if Q ≠ [] then '?' :: Q else [] with hq1d
  set f1 := if F ≠ [] then '#' :: F else [] with hf1d
  -- the tail after the netloc starts with a netloc-stopping character (or is
  -- empty)
  have hM : P ++ (q1 ++ f1) = [] ∨
      ∃ c t, P ++ (q1 ++ f1) = c :: t ∧ netlocStop c = true := by
    rcases hP0 with hP | hP
    · subst hP
      simp only [List.nil_append]
      rcases hq1 with ⟨hq, hq1e⟩ | hq1e
      · rw [hq1e]
        simp only [List.nil_append]
        rcases hf1 with ⟨hf, hf1e⟩ | hf1e
        · rw [hf1e]; exact Or.inl rfl
        · rw [hf1e]; exact Or.inr ⟨'#', F, rfl, by decide⟩
      · rw [hq1e]
        exact Or.inr ⟨'?', Q ++ f1, by simp, by decide⟩
    · cases P with
      | nil => simp at hP
      | cons a t =>
        simp at hP
        subst hP
        exact Or.inr ⟨'/', t ++ (q1 ++ f1), by simp, by decide⟩
  -- netloc characters pass the netloc predicate
  have hNp : ∀ a ∈ N, decide (¬netlocStop a = true) = true := by
    intro a ha
    simp [hN a ha]
  -- the netloc and the remainder
  have hM2 : P ++ (q1 ++ f1) = [] ∨ ∃ c t, P ++ (q1 ++ f1) = c :: t ∧
      decide (¬netlocStop c = true) = false := by
    rcases hM with hM | ⟨c, t, hM, hc⟩
    · exact Or.inl hM
    · exact Or.inr ⟨c, t, hM, by simp [hc]⟩
  have e0 : (N ++ (P ++ (q1 ++ f1))).takeWhile (fun c => ¬netlocStop c) = N := by
    rw [List.takeWhile_append_of_pos hNp, takeWhile_eq_nil_of_head hM2,
      List.append_nil]
  have e1 : (N ++ (P ++ (q1 ++ f1))).dropWhile (fun c => ¬netlocStop c) =
      P ++ (q1 ++ f1) := by
    rw [List.dropWhile_append_of_pos hNp, dropWhile_eq_self_of_head hM2]
  -- fragment split
  have hPh : ∀ a ∈ P, decide (a ≠ '#') = true := by
    intro a ha
    simp [(hPc a ha).2.1]
  have hq1h : ∀ a ∈ q1, decide (a ≠ '#') = true := by
    intro a ha
    rcases hq1 with ⟨_, hq1e⟩ | hq1e
    · rw [hq1e] at ha; simp at ha
    · rw [hq1e] at ha
      rcases List.mem_cons.mp ha with rfl | ha
      · decide
      · simp [hQ a ha]
  have hf2 : f1 = [] ∨ ∃ c t, f1 = c :: t ∧ decide (c ≠ '#') = false := by
    rcases hf1 with ⟨_, hf1e⟩ | hf1e
    · exact Or.inl hf1e
    · exact Or.inr ⟨'#', F, hf1e, by decide⟩
  have e2 : (P ++ (q1 ++ f1)).takeWhile (fun c => (c ≠ '#' : Bool)) =
      P ++ q1 := by
    rw [List.takeWhile_append_of_pos hPh, List.takeWhile_append_of_pos hq1h,
      takeWhile_eq_nil_of_head hf2, List.append_nil]
  have e3 : ((P ++ (q1 ++ f1)).dropWhile (fun c => (c ≠ '#' : Bool))).tail = F := by
    rw [List.dropWhile_append_of_pos hPh, List.dropWhile_append_of_pos hq1h]
    rcases hf1 with ⟨hf, hf1e⟩ | hf1e
    · rw [hf1e]
      simp [hf]
    · rw [hf1e]
      rw [dropWhile_eq_self_of_head (Or.inr ⟨'#', F, rfl, by decide⟩)]
      rfl
  -- query split
  have hPq : ∀ a ∈ P, decide (a ≠ '?') = true := by
    intro a ha
    simp [(hPc a ha).1]
  have hq2 : q1 = [] ∨ ∃ c t, q1 = c :: t ∧ decide (c ≠ '?') = false := by
    rcases hq1 with ⟨_, hq1e⟩ | hq1e
    · exact Or.inl hq1e
    · exact Or.inr ⟨'?', Q, hq1e, by decide⟩
  have e4 : (P ++ q1).takeWhile (fun c => (c ≠ '?' : Bool)) = P := by
    rw [List.takeWhile_append_of_pos hPq, takeWhile_eq_nil_of_head hq2,
      List.append_nil]
  have e5 : ((P ++ q1).dropWhile (fun c => (c ≠ '?' : Bool))).tail = Q := by
    rw [List.dropWhile_append_of_pos hPq]
    rcases hq1 with ⟨hq, hq1e⟩ | hq1e
    · rw [hq1e]
      simp [hq]
    · rw [hq1e]
      rw [dropWhile_eq_self_of_head (Or.inr ⟨'?', Q, rfl, by decide⟩)]
      rfl
  -- params split is a no-op on a `;`-free path
  have e6 : P.contains ';' = false :=
    contains_eq_false_of_forall fun c hc => (hPc c hc).2.2
  simp only [parseRest, e0, e1, e2, e3, e4, e5, e6, Bool.false_eq_true,
    if_false]

theorem UrlParts.netloc_mk (a b c d : List Char) :
    (UrlParts.mk a b c d).netloc = a := rfl

theorem UrlParts.path_mk (a b c d : List Char) :
    (UrlParts.mk a b c d).path = b := rfl

theorem UrlParts.query_mk (a b c d : List Char) :
    (UrlParts.mk a b c d).query = c := rfl

theorem UrlParts.frag_mk (a b c d : List Char) :
    (UrlParts.mk a b c d).frag = d := rfl

theorem urlRender_assoc (https : Bool) (N P Q F : List Char) :
    urlRender https N P Q F =
      (if https then httpsPre else httpPre) ++
        (N ++ (P ++ ((if Q ≠ [] then '?' :: Q else []) ++
          (if F ≠ [] then '#' :: F else [])))) := by
  unfold urlRender
  simp [List.append_assoc]

theorem listStartsWith_http_https (t : List Char) :
    listStartsWith (httpPre ++ t) httpsPre = false := by
  have h : httpPre ++ t = 'h' :: 't' :: 't' :: 'p' :: ':' :: '/' :: '/' :: t := rfl
  rw [h]
  have h2 : httpsPre = 'h' :: 't' :: 't' :: 'p' :: 's' :: ':' :: '/' :: '/' :: [] := rfl
  rw [h2]
  simp [listStartsWith]

theorem urlClean_eq_self {l : List Char}
    (hhead : l = [] ∨ ∃ c t, l = c :: t ∧ c0OrSpace c = false)
    (hclean2 : ∀ c ∈ l, urlUnsafeChar c = false) : urlClean l = l := by
  unfold urlClean
  rw [dropWhile_eq_self_of_head hhead]
  rw [List.filter_eq_self.mpr]
  intro a ha
  simp [hclean2 a ha]

set_option maxHeartbeats 1600000 in
/-- A rendered normalized URL is a fixed point of `normalizeCore`, given the
component invariants that the first pass establishes. -/
theorem normalizeCore_render_fixed
    (https : Bool) (N P Q F : List Char) (pn : Option Nat)
    (hN : ∀ c ∈ N, netlocStop c = false ∧ urlUnsafeChar c = false)
    (hP1 : P = ['/'] ∨ (P.reverse.dropWhile fun c => c = '/').reverse = P)
    (hP0 : P = [] ∨ P.head? = some '/')
    (hPc : ∀ c ∈ P, c ≠ '?' ∧ c ≠ '#' ∧ c ≠ ';' ∧ urlUnsafeChar c = false)
    (hQ : ∀ c ∈ Q, c ≠ '#' ∧ urlUnsafeChar c = false)
    (hF : ∀ c ∈ F, urlUnsafeChar c = false)
    (hport : portVal? (hostPort N).2 = .ok pn)
    (hdef : ¬((¬https = true ∧ pn = some 80) ∨ (https = true ∧ pn = some 443))) :
    normalizeCore (urlRender https N P Q F) = .ok (urlRender https N P Q F) := by
  have hRne : urlRender https N P Q F ≠ [] := by
    intro hcontra
    unfold urlRender at hcontra
    have a1 := (List.append_eq_nil.mp hcontra).1
    have a2 := (List.append_eq_nil.mp a1).1
    have a3 := (List.append_eq_nil.mp a2).1
    have a4 := (List.append_eq_nil.mp a3).1
    cases https
    · exact absurd a4 (by decide)
    · exact absurd a4 (by decide)
  have eiff : (if (false = true) then httpsPre else httpPre) = httpPre := rfl
  have eift : (if (true = true) then httpsPre else httpPre) = httpsPre := rfl
  have hsw : (listStartsWith (urlRender https N P Q F) httpPre ||
      listStartsWith (urlRender https N P Q F) httpsPre) = true := by
    cases https
    · have h1 : listStartsWith (urlRender false N P Q F) httpPre = true := by
        rw [urlRender_assoc, eiff]
        exact listStartsWith_append _ _
      rw [h1, Bool.true_or]
    · have h1 : listStartsWith (urlRender true N P Q F) httpsPre = true := by
        rw [urlRender_assoc, eift]
        exact listStartsWith_append _ _
      rw [h1, Bool.or_true]
  have hRchars : ∀ c ∈ urlRender https N P Q F, urlUnsafeChar c = false := by
    rw [urlRender_assoc]
    intro c hc
    rcases List.mem_append.mp hc with hc | hc
    · cases https
      · rw [eiff] at hc
        have hall : ∀ c ∈ httpPre, urlUnsafeChar c = false := by decide
        exact hall c hc
      · rw [eift] at hc
        have hall : ∀ c ∈ httpsPre, urlUnsafeChar c = false := by decide
        exact hall c hc
    · rcases List.mem_append.mp hc with hc | hc
      · exact (hN c hc).2
      · rcases List.mem_append.mp hc with hc | hc
        · exact (hPc c hc).2.2.2
        · rcases List.mem_append.mp hc with hc | hc
          · by_cases hq : Q = []
            · simp [hq] at hc
            · simp [hq] at hc
              rcases hc with rfl | hc
              · decide
              · exact (hQ c hc).2
          · by_cases hf : F = []
            · simp [hf] at hc
            · simp [hf] at hc
              rcases hc with rfl | hc
              · decide
              · exact hF c hc
  have hclean : urlClean (urlRender https N P Q F) = urlRender https N P Q F := by
    refine urlClean_eq_self ?_ hRchars
    right
    rw [urlRender_assoc]
    cases https
    · rw [eiff]
      exact ⟨'h', _, rfl, by decide⟩
    · rw [eift]
      exact ⟨'h', _, rfl, by decide⟩
  have hflag : listStartsWith (urlRender https N P Q F) httpsPre = https := by
    cases https
    · rw [urlRender_assoc, eiff]
      exact listStartsWith_http_https _
    · rw [urlRender_assoc, eift]
      exact listStartsWith_append _ _
  have hdrop : (urlRender https N P Q F).drop (if https then 8 else 7) =
      N ++ (P ++ ((if Q ≠ [] then '?' :: Q else []) ++
        (if F ≠ [] then '#' :: F else []))) := by
    cases https
    · rw [urlRender_assoc, eiff]
      exact List.drop_left' (by decide)
    · rw [urlRender_assoc, eift]
      exact List.drop_left' (by decide)
  have hparse : parseRest ((urlRender https N P Q F).drop
      (if https then 8 else 7)) = ⟨N, P, Q, F⟩ := by
    rw [hdrop]
    exact parseRest_spec (fun c hc => (hN c hc).1) hP0
      (fun c hc => ⟨(hPc c hc).1, (hPc c hc).2.1, (hPc c hc).2.2.1⟩)
      (fun c hc => (hQ c hc).1)
  simp only [normalizeCore]
  rw [if_neg hRne, if_pos hsw, hclean, hflag, hparse]
  simp only [UrlParts.netloc_mk, UrlParts.path_mk, UrlParts.query_mk,
    UrlParts.frag_mk]
  rw [hport]
  simp only [Except.map]
  rw [if_neg hdef]
  rcases hP1 with hP1 | hP1
  · rw [if_pos hP1, hP1]
  · by_cases hsl : P = ['/']
    · rw [if_pos hsl, hsl]
    · rw [if_neg hsl, hP1]

theorem takeWhile_eq_self_of_all {p : Char → Bool} {l : List Char}
    (h : ∀ c ∈ l, p c = true) : l.takeWhile p = l := by
  induction l with
  | nil => rfl
  | cons a t ih =>
    rw [List.takeWhile_cons, if_pos (h a (by simp))]
    rw [ih fun c hc => h c (by simp [hc])]

theorem dropWhile_eq_nil_of_all {p : Char → Bool} {l : List Char}
    (h : ∀ c ∈ l, p c = true) : l.dropWhile p = [] := by
  induction l with
  | nil => rfl
  | cons a t ih =>
    rw [List.dropWhile_cons, if_pos (h a (by simp))]
    exact ih fun c hc => h c (by simp [hc])

theorem dropWhile_head_not {p : Char → Bool} (l : List Char) :
    l.dropWhile p = [] ∨ ∃ c t, l.dropWhile p = c :: t ∧ p c = false := by
  induction l with
  | nil => exact Or.inl rfl
  | cons a t ih =>
    rw [List.dropWhile_cons]
    split
    · exact ih
    · next h => exact Or.inr ⟨a, t, rfl, by simpa using h⟩

theorem netlocStop_cases {c : Char} (h : netlocStop c = true) :
    c = '/' ∨ c = '?' ∨ c = '#' := by
  have h2 : (c = '/' ∨ c = '?') ∨ c = '#' := by simpa [netlocStop] using h
  tauto

theorem afterLastAt_subset {l : List Char} : ∀ c ∈ afterLastAt l, c ∈ l := by
  intro c hc
  unfold afterLastAt at hc
  have h1 := List.mem_reverse.mp hc
  have h2 := (List.takeWhile_sublist _).subset h1
  exact List.mem_reverse.mp h2

theorem afterLastAt_no_at {l : List Char} : ∀ c ∈ afterLastAt l, c ≠ '@' := by
  intro c hc
  have h1 := List.mem_reverse.mp hc
  have h2 := List.mem_takeWhile_imp h1
  simpa using h2

theorem afterLastAt_eq_self {l : List Char} (h : ∀ c ∈ l, c ≠ '@') :
    afterLastAt l = l := by
  unfold afterLastAt
  rw [takeWhile_eq_self_of_all, List.reverse_reverse]
  intro c hc
  simp [h c (List.mem_reverse.mp hc)]

/-- A netloc without `:`, `@` or `[` has no port. -/
theorem hostPort_none {l : List Char}
    (hcol : ∀ c ∈ l, c ≠ ':') (hat : ∀ c ∈ l, c ≠ '@')
    (hbr : ∀ c ∈ l, c ≠ '[') : (hostPort l).2 = Option.none := by
  simp only [hostPort]
  rw [afterLastAt_eq_self hat]
  rw [contains_eq_false_of_forall hbr]
  simp only [Bool.false_eq_true, if_false]
  rw [dropWhile_eq_nil_of_all (fun c hc => by simp [hcol c hc])]
  rfl

theorem lower_range_props {d : Char} (h1 : 97 ≤ d.toNat) (h2 : d.toNat ≤ 122) :
    netlocStop d = false ∧ urlUnsafeChar d = false ∧ d ≠ ':' ∧ d ≠ '@' ∧
      d ≠ '[' := by
  have e1 : d ≠ '/' := ne_of_lowercase_range h1 h2 (Or.inl (by decide))
  have e2 : d ≠ '?' := ne_of_lowercase_range h1 h2 (Or.inl (by decide))
  have e3 : d ≠ '#' := ne_of_lowercase_range h1 h2 (Or.inl (by decide))
  have e4 : d ≠ '\t' := ne_of_lowercase_range h1 h2 (Or.inl (by decide))
  have e5 : d ≠ '\r' := ne_of_lowercase_range h1 h2 (Or.inl (by decide))
  have e6 : d ≠ '\n' := ne_of_lowercase_range h1 h2 (Or.inl (by decide))
  refine ⟨?_, ?_, ?_, ?_, ?_⟩
  · simp [netlocStop, e1, e2, e3]
  · simp [urlUnsafeChar, e4, e5, e6]
  · exact ne_of_lowercase_range h1 h2 (Or.inl (by decide))
  · exact ne_of_lowercase_range h1 h2 (Or.inl (by decide))
  · exact ne_of_lowercase_range h1 h2 (Or.inl (by decide))

/-- The netloc substituted for a default port (`parsed.hostname`, or the
rendered `None`) has no stop characters, no unsafe characters, and no port of
its own. -/
theorem hostRender_props {netloc : List Char}
    (hstop : ∀ c ∈ netloc, netlocStop c = false ∧ urlUnsafeChar c = false)
    (hbr : ∀ c ∈ netloc, c ≠ '[') :
    (∀ c ∈ (match hostnameOf netloc with
            | some h => h
            | Option.none => "None".data),
      netlocStop c = false ∧ urlUnsafeChar c = false) ∧
    (hostPort (match hostnameOf netloc with
               | some h => h
               | Option.none => "None".data)).2 = Option.none := by
  have hhibr : (afterLastAt netloc).contains '[' = false :=
    contains_eq_false_of_forall fun c hc => hbr c (afterLastAt_subset c hc)
  have hfst : (hostPort netloc).1 =
      (afterLastAt netloc).takeWhile fun c => c ≠ ':' := by
    simp only [hostPort, hhibr, Bool.false_eq_true, if_false]
  have hhchar : ∀ c ∈ (hostPort netloc).1,
      netlocStop c = false ∧ urlUnsafeChar c = false ∧ c ≠ ':' ∧ c ≠ '@' ∧
        c ≠ '[' := by
    intro c hc
    rw [hfst] at hc
    have hcol : c ≠ ':' := by simpa using List.mem_takeWhile_imp hc
    have hmemhi : c ∈ afterLastAt netloc := (List.takeWhile_sublist _).subset hc
    have hmem : c ∈ netloc := afterLastAt_subset c hmemhi
    exact ⟨(hstop c hmem).1, (hstop c hmem).2, hcol,
      afterLastAt_no_at c hmemhi, hbr c hmem⟩
  have key : ∀ c ∈ (match hostnameOf netloc with
      | some h => h
      | Option.none => "None".data),
      netlocStop c = false ∧ urlUnsafeChar c = false ∧ c ≠ ':' ∧ c ≠ '@' ∧
        c ≠ '[' := by
    intro c hc
    unfold hostnameOf at hc
    split at hc
    · next h heq =>
      -- hostnameOf = some h: h is the rendered hostname
      simp only at heq
      split at heq
      · exact absurd heq (by simp)
      · next hne =>
        have heq2 := Option.some.inj heq
        rw [← heq2] at hc
        rcases List.mem_append.mp hc with hc | hc
        · obtain ⟨d, hd, rfl⟩ := List.mem_map.mp hc
          have hdmem : d ∈ (hostPort netloc).1 :=
            (List.takeWhile_sublist _).subset hd
          have hdp := hhchar d hdmem
          rcases toLower_eq_or d with he | ⟨hr1, hr2⟩
          · rw [he]
            exact hdp
          · exact ⟨(lower_range_props hr1 hr2).1, (lower_range_props hr1 hr2).2.1,
              (lower_range_props hr1 hr2).2.2.1, (lower_range_props hr1 hr2).2.2.2.1,
              (lower_range_props hr1 hr2).2.2.2.2⟩
        · have hdmem : c ∈ (hostPort netloc).1 :=
            (List.dropWhile_sublist _).subset hc
          exact hhchar c hdmem
    · next heq =>
      -- hostnameOf = none: the literal text None
      have hNone : ∀ c ∈ ("None".data : List Char),
          netlocStop c = false ∧ urlUnsafeChar c = false ∧ c ≠ ':' ∧ c ≠ '@' ∧
            c ≠ '[' := by decide
      exact hNone c hc
  refine ⟨fun c hc => ⟨(key c hc).1, (key c hc).2.1⟩, ?_⟩
  exact hostPort_none (fun c hc => (key c hc).2.2.1)
    (fun c hc => (key c hc).2.2.2.1) (fun c hc => (key c hc).2.2.2.2)

set_option maxHeartbeats 3200000 in
/-- Renormalization is stable for inputs without `;` and `[`: whatever
`normalize_url` returns on such an input is a fixed point. -/
theorem normalizeCore_idem {u : List Char} (hsemi : ';' ∉ u) (hbru : '[' ∉ u)
    {v : List Char} (hv : normalizeCore u = .ok v) : normalizeCore v = .ok v := by
  by_cases hu : u = []
  · subst hu
    have hvnil : v = [] := by simpa [normalizeCore] using hv
    subst hvnil
    rfl
  · simp only [normalizeCore] at hv
    rw [if_neg hu] at hv
    set S : List Char := if listStartsWith u httpPre || listStartsWith u httpsPre
      then u else httpsPre ++ u with hS
    set cleaned : List Char := urlClean S with hcleaned
    set flag : Bool := listStartsWith cleaned httpsPre with hflag
    set rest : List Char := cleaned.drop (if flag then 8 else 7) with hrest
    have hSprop : ∀ c ∈ S, c ≠ ';' ∧ c ≠ '[' := by
      intro c hc
      rw [hS] at hc
      by_cases hstart : (listStartsWith u httpPre ||
          listStartsWith u httpsPre) = true
      · rw [if_pos hstart] at hc
        exact ⟨fun he => hsemi (he ▸ hc), fun he => hbru (he ▸ hc)⟩
      · rw [if_neg hstart] at hc
        rcases List.mem_append.mp hc with hc | hc
        · have hall : ∀ c ∈ httpsPre, c ≠ ';' ∧ c ≠ '[' := by decide
          exact hall c hc
        · exact ⟨fun he => hsemi (he ▸ hc), fun he => hbru (he ▸ hc)⟩
    have hclprop : ∀ c ∈ cleaned, c ≠ ';' ∧ c ≠ '[' ∧ urlUnsafeChar c = false := by
      intro c hc
      rw [hcleaned] at hc
      unfold urlClean at hc
      have h2 := List.mem_filter.mp hc
      have h3 : c ∈ S := (List.dropWhile_sublist _).subset h2.1
      refine ⟨(hSprop c h3).1, (hSprop c h3).2, ?_⟩
      simpa using h2.2
    have hrestprop : ∀ c ∈ rest, c ≠ ';' ∧ c ≠ '[' ∧ urlUnsafeChar c = false := by
      intro c hc
      rw [hrest] at hc
      exact hclprop c (List.drop_subset _ _ hc)
    cases hp : portVal? (hostPort (parseRest rest).netloc).2 with
    | error e =>
      rw [hp] at hv
      simp [Except.map] at hv
    | ok port =>
      rw [hp] at hv
      simp only [Except.map] at hv
      rw [Except.ok.injEq] at hv
      subst hv
      set N0 : List Char := (parseRest rest).netloc with hN0
      set P0 : List Char := (parseRest rest).path with hP0d
      set Q0 : List Char := (parseRest rest).query with hQ0d
      set F0 : List Char := (parseRest rest).frag with hF0d
      have hN0eq : N0 = rest.takeWhile (fun c => ¬netlocStop c) := by
        rw [hN0]; rfl
      have hP0eq : P0 =
          (if (((rest.dropWhile fun c => ¬netlocStop c).takeWhile
              fun c => c ≠ '#').takeWhile fun c => c ≠ '?').contains ';' then
            (splitparams (((rest.dropWhile fun c => ¬netlocStop c).takeWhile
              fun c => c ≠ '#').takeWhile fun c => c ≠ '?')).1
          else (((rest.dropWhile fun c => ¬netlocStop c).takeWhile
              fun c => c ≠ '#').takeWhile fun c => c ≠ '?')) := by
        rw [hP0d]; rfl
      have hQ0eq : Q0 = (((rest.dropWhile fun c => ¬netlocStop c).takeWhile
          fun c => c ≠ '#').dropWhile fun c => c ≠ '?').tail := by
        rw [hQ0d]; rfl
      have hF0eq : F0 = ((rest.dropWhile fun c => ¬netlocStop c).dropWhile
          fun c => c ≠ '#').tail := by
        rw [hF0d]; rfl
      -- netloc properties
      have hNprop : ∀ c ∈ N0, netlocStop c = false ∧ urlUnsafeChar c = false := by
        intro c hc
        rw [hN0eq] at hc
        have h1 : netlocStop c = false := by
          simpa using List.mem_takeWhile_imp hc
        have h2 : c ∈ rest := (List.takeWhile_sublist _).subset hc
        exact ⟨h1, (hrestprop c h2).2.2⟩
      have hNbr : ∀ c ∈ N0, c ≠ '[' := by
        intro c hc
        rw [hN0eq] at hc
        exact (hrestprop c ((List.takeWhile_sublist _).subset hc)).2.1
      -- path properties
      have hpath0sub : ∀ c ∈ (((rest.dropWhile fun c => ¬netlocStop c).takeWhile
          fun c => c ≠ '#').takeWhile fun c => c ≠ '?'), c ∈ rest := by
        intro c hc
        exact (List.dropWhile_sublist _).subset
          ((List.takeWhile_sublist _).subset ((List.takeWhile_sublist _).subset hc))
      have hpath0chars : ∀ c ∈ (((rest.dropWhile fun c => ¬netlocStop c).takeWhile
          fun c => c ≠ '#').takeWhile fun c => c ≠ '?'),
          c ≠ '?' ∧ c ≠ '#' ∧ c ≠ ';' ∧ urlUnsafeChar c = false := by
        intro c hc
        have h1 : c ≠ '?' := by simpa using List.mem_takeWhile_imp hc
        have hc2 := (List.takeWhile_sublist _).subset hc
        have h2 : c ≠ '#' := by simpa using List.mem_takeWhile_imp hc2
        have h3 := hrestprop c (hpath0sub c hc)
        exact ⟨h1, h2, h3.1, h3.2.2⟩
      have hP0path0 : P0 = (((rest.dropWhile fun c => ¬netlocStop c).takeWhile
          fun c => c ≠ '#').takeWhile fun c => c ≠ '?') := by
        rw [hP0eq, contains_eq_false_of_forall fun c hc => (hpath0chars c hc).2.2.1]
        simp
      have hpath0head : P0 = [] ∨ ∃ t, P0 = '/' :: t := by
        rw [hP0path0]
        rcases dropWhile_head_not (p := fun c => ¬netlocStop c) rest with hr | ⟨c, t, hr, hcp⟩
        · rw [hr]
          exact Or.inl rfl
        · rw [hr]
          have hstop : netlocStop c = true := by simpa using hcp
          rcases netlocStop_cases hstop with rfl | rfl | rfl
          · right
            rw [List.takeWhile_cons, if_pos (by decide), List.takeWhile_cons,
              if_pos (by decide)]
            exact ⟨_, rfl⟩
          · left
            rw [List.takeWhile_cons, if_pos (by decide), List.takeWhile_cons,
              if_neg (by decide)]
          · left
            rw [List.takeWhile_cons, if_neg (by decide)]
            rfl
      -- query and fragment properties
      have hQprop : ∀ c ∈ Q0, c ≠ '#' ∧ urlUnsafeChar c = false := by
        intro c hc
        rw [hQ0eq] at hc
        have hc2 := (List.dropWhile_sublist _).subset (List.mem_of_mem_tail hc)
        have h1 : c ≠ '#' := by simpa using List.mem_takeWhile_imp hc2
        have hc3 : c ∈ rest :=
          (List.dropWhile_sublist _).subset ((List.takeWhile_sublist _).subset hc2)
        exact ⟨h1, (hrestprop c hc3).2.2⟩
      have hFprop : ∀ c ∈ F0, urlUnsafeChar c = false := by
        intro c hc
        rw [hF0eq] at hc
        have hc2 := (List.dropWhile_sublist _).subset (List.mem_of_mem_tail hc)
        have hc3 : c ∈ rest := (List.dropWhile_sublist _).subset hc2
        exact (hrestprop c hc3).2.2
      -- path2 properties
      have hP2chars : ∀ c ∈ (if P0 = ['/'] then P0
          else (P0.reverse.dropWhile fun c => c = '/').reverse),
          c ≠ '?' ∧ c ≠ '#' ∧ c ≠ ';' ∧ urlUnsafeChar c = false := by
        intro c hc
        by_cases hsl : P0 = ['/']
        · rw [if_pos hsl] at hc
          rw [hP0path0] at hc
          exact hpath0chars c hc
        · rw [if_neg hsl] at hc
          have hc2 : c ∈ P0 := by
            have := (List.dropWhile_sublist (fun c => c = '/')).subset
              (List.mem_reverse.mp hc)
            exact List.mem_reverse.mp this
          rw [hP0path0] at hc2
          exact hpath0chars c hc2
      have hP2strip : (if P0 = ['/'] then P0
          else (P0.reverse.dropWhile fun c => c = '/').reverse) = ['/'] ∨
          (((if P0 = ['/'] then P0
          else (P0.reverse.dropWhile fun c => c = '/').reverse).reverse.dropWhile
            fun c => c = '/').reverse =
          (if P0 = ['/'] then P0
          else (P0.reverse.dropWhile fun c => c = '/').reverse)) := by
        by_cases hsl : P0 = ['/']
        · rw [if_pos hsl, hsl]
          exact Or.inl rfl
        · rw [if_neg hsl]
          exact Or.inr (rstripSlash_idem P0)
      have hP2head : (if P0 = ['/'] then P0
          else (P0.reverse.dropWhile fun c => c = '/').reverse) = [] ∨
          (if P0 = ['/'] then P0
          else (P0.reverse.dropWhile fun c => c = '/').reverse).head? = some '/' := by
        by_cases hsl : P0 = ['/']
        · rw [if_pos hsl, hsl]
          exact Or.inr rfl
        · rw [if_neg hsl]
          rcases hpath0head with hP | ⟨t0, hP⟩
          · rw [hP]
            exact Or.inl rfl
          · obtain ⟨t2, ht2⟩ := rstripSlash_append_ex P0
            cases hr : (P0.reverse.dropWhile fun c => c = '/').reverse with
            | nil => exact Or.inl rfl
            | cons a u2 =>
              right
              rw [hr] at ht2
              rw [hP] at ht2
              have : a = '/' := by
                have h3 : a :: (u2 ++ t2) = '/' :: t0 := by simpa using ht2
                exact (List.cons.injEq _ _ _ _).mp h3 |>.1
              rw [this]
              rfl
      by_cases hdp : ((¬flag = true ∧ port = some 80) ∨
          (flag = true ∧ port = some 443))
      · rw [if_pos hdp]
        have hprops := hostRender_props hNprop hNbr
        exact normalizeCore_render_fixed flag _ _ Q0 F0 Option.none
          hprops.1 hP2strip hP2head hP2chars hQprop hFprop
          (by rw [hprops.2]; rfl) (by simp)
      · rw [if_neg hdp]
        exact normalizeCore_render_fixed flag N0 _ Q0 F0 port
          hNprop hP2strip hP2head hP2chars hQprop hFprop hp hdp

/-- **C4** (refuted as stated).  `normalize_url` is *not* idempotent for every
input string: `urlparse` splits `;params` off the last path segment only, so
normalizing `http://example.com/a;b/` first strips the trailing slash (the
`;` is not in the last segment), and renormalizing the result then treats
`;b` as params and drops it. -/
theorem normalize_url_not_idempotent :
    normalize_url "http://example.com/a;b/" = .ok "http://example.com/a;b" ∧
    normalize_url "http://example.com/a;b" = .ok "http://example.com/a" ∧
    ¬∃ w, normalize_url "http://example.com/a;b/" = .ok w ∧
      normalize_url w = .ok w := by
  refine ⟨rfl, rfl, ?_⟩
  rintro ⟨w, h1, h2⟩
  have h0 : normalize_url "http://example.com/a;b/" =
      .ok "http://example.com/a;b" := rfl
  rw [h0, Except.ok.injEq] at h1
  subst h1
  have h3 : normalize_url "http://example.com/a;b" =
      .ok "http://example.com/a" := rfl
  rw [h3, Except.ok.injEq] at h2
  exact absurd h2 (by decide)

/-- **C4** (amended).  For every input without `;` and without `[`, URL
normalization is idempotent: whatever string `normalize_url` returns,
normalizing it again returns it unchanged.  In particular the two URLs
`http://example.com:80/path/` and `http://example.com/path`, which differ
only in a default port and a single trailing slash, both normalize to
`http://example.com/path`. -/
theorem normalize_url_idem_amended :
    (∀ (u v : String), ';' ∉ u.data → '[' ∉ u.data →
      normalize_url u = .ok v → normalize_url v = .ok v) ∧
    normalize_url "http://example.com:80/path/" = .ok "http://example.com/path" ∧
    normalize_url "http://example.com/path" = .ok "http://example.com/path" := by
  refine ⟨?_, rfl, rfl⟩
  intro u v h1 h2 hv
  unfold normalize_url at hv ⊢
  cases hcore : normalizeCore u.data with
  | error e =>
    rw [hcore] at hv
    simp [Except.map] at hv
  | ok w =>
    rw [hcore] at hv
    simp only [Except.map] at hv
    rw [Except.ok.injEq] at hv
    have hidem := normalizeCore_idem h1 h2 hcore
    subst hv
    have hdata : (String.mk w).data = w := rfl
    rw [hdata, hidem]
    rfl

/-- Witness for the amended C4: normalizing the already-normalized form of
`http://example.com:80/path/` leaves it unchanged. -/
theorem normalize_url_idem_amended_witness :
    normalize_url "http://example.com/path" = .ok "http://example.com/path" :=
  normalize_url_idem_amended.1 "http://example.com:80/path/"
    "http://example.com/path" (by decide) (by decide) rfl
